import Mathlib

/-!
Shallow embedding of the AI-Powered Financial News Intelligence System's article
processing and query pipeline, together with proofs of the spec's testable
properties.  Python floats are modelled as exact rationals, Python dicts as
association lists in insertion order, and the external collaborators (embedding
provider, vector store, relational store, the two raw entity extractors) as
oracle functions returning `Except String` results, mirroring the narrow
contracts of spec section 6.  Fallible Python code is modelled with explicit
`Except`/`Option` values; mutation of the per-request `AgentState` dict is
modelled by explicit state passing.
-/

namespace NewsPipeline

/-- Confidence and similarity scores; Python floats modelled as exact rationals. -/
abbrev Score := ℚ

/-- Embedding vectors, opaque to the core; only passed between collaborators. -/
abbrev Embedding := List ℚ

/-- Python `str.lower()` (ASCII reading), by character. -/
def pyLower (s : String) : String := String.mk (s.data.map Char.toLower)

/-- Python `str.upper()` (ASCII reading), by character. -/
def pyUpper (s : String) : String := String.mk (s.data.map Char.toUpper)

/-- Python `str.strip()`: drop leading and trailing whitespace. -/
def stripChars (l : List Char) : List Char :=
  ((l.dropWhile Char.isWhitespace).reverse.dropWhile Char.isWhitespace).reverse

/-- Python `str.strip()` on strings. -/
def pyStrip (s : String) : String := String.mk (stripChars s.data)

/-- Python `s.lower().strip()`, the value half of the entity uniqueness key. -/
def lowerTrim (s : String) : String := pyStrip (pyLower s)

/-- Python `pat in s` on character lists: `pat` occurs contiguously in `s`. -/
def listContains (s pat : List Char) : Bool :=
  match s with
  | [] => pat.isEmpty
  | _ :: tail => pat.isPrefixOf s || listContains tail pat

/-- Python `sub in s` substring test on strings. -/
def pyContains (s sub : String) : Bool := listContains s.data sub.data

/-- Python `str.replace(pat, rep)` core loop: scan left to right, replacing each
non-overlapping occurrence.  Recursion is on a fuel bounded by the input length;
the patterns used by this model are never empty, and an empty pattern is treated
as a no-op. -/
def replaceAux (pat rep : List Char) : Nat → List Char → List Char
  | _, [] => []
  | 0, l => l
  | n + 1, c :: cs =>
    if pat ≠ [] && pat.isPrefixOf (c :: cs) then
      rep ++ replaceAux pat rep n ((c :: cs).drop pat.length)
    else c :: replaceAux pat rep n cs

/-- Python `s.replace(pat, rep)` on strings. -/
def pyReplace (s pat rep : String) : String :=
  String.mk (replaceAux pat.data rep.data s.data.length s.data)

/-- Python `s.split(".")`: split on every dot, keeping empty pieces; the result
is never the empty list. -/
def splitOnDotAux : List Char → List Char → List String
  | [], cur => [String.mk cur.reverse]
  | c :: cs, cur =>
    if c == '.' then String.mk cur.reverse :: splitOnDotAux cs []
    else splitOnDotAux cs (c :: cur)

/-- Python `s.split(".")` on strings. -/
def pySplitDot (s : String) : List String := splitOnDotAux s.data []

/-- Character-level model of `re.sub(r"\s+", " ", text)`: every maximal run of
whitespace becomes a single space.  The boolean tracks whether the previous
character was whitespace. -/
def collapseWsAux : List Char → Bool → List Char
  | [], _ => []
  | c :: cs, prevWs =>
    if c.isWhitespace then
      if prevWs then collapseWsAux cs true else ' ' :: collapseWsAux cs true
    else c :: collapseWsAux cs false

/-- Python regex `\w` (ASCII reading): letters, digits and underscore. -/
def isWordChar (c : Char) : Bool := c.isAlphanum || c == '_'

/-- Characters kept by `clean_text`'s second substitution
`re.sub(r"[^\w\s.,!?;:()\-'\"%$]", " ", text)`. -/
def isAllowedChar (c : Char) : Bool :=
  isWordChar c || c.isWhitespace ||
    ['.', ',', '!', '?', ';', ':', '(', ')', '-', '\'', '"', '%', '$'].contains c

/-- Model of `src/utils/text_processing.py` `clean_text`: collapse whitespace,
replace each disallowed character by a space, strip. -/
def clean_text (text : String) : String :=
  if text = "" then ""
  else
    String.mk
      (stripChars ((collapseWsAux text.data false).map (fun c => if isAllowedChar c then c else ' ')))

/-- Python `s.rsplit(" ", 1)[0]`: the part before the last space, or `s` itself
when there is no space. -/
def beforeLastSpace (s : String) : String :=
  match s.data.reverse.findIdx? (· == ' ') with
  | none => s
  | some i => String.mk (s.data.take (s.data.length - i - 1))

/-- Model of `src/utils/text_processing.py` `extract_title_from_content` with the
default `max_length = 200`.  Python's `content.split(".")` is never the empty
list, so the character-based fallback branch is dead code; it is kept here for
faithfulness. -/
def extract_title_from_content (content : String) : String :=
  if content = "" then "Untitled"
  else
    match pySplitDot content with
    | [] =>
      if content.data.length > 200 then pyStrip (String.mk (content.data.take 200)) ++ "..."
      else pyStrip content
    | t :: _ =>
      let title := pyStrip t
      if title.data.length > 200 then beforeLastSpace (String.mk (title.data.take 200)) ++ "..."
      else title

/-- Legal suffixes stripped by `normalize_company_name`'s regex alternation. -/
def legalSuffixes : List String := ["Ltd", "Limited", "Inc", "Incorporated", "Corp", "Corporation", "LLC"]

/-- Match one reversed lowercased suffix at the head of the reversed character
list, then require at least one whitespace character (the regex `\s+`) and drop
the whole whitespace run; returns the remaining reversed prefix. -/
def matchSuffixRev : List Char → List Char → Option (List Char)
  | [], cs =>
    match cs with
    | c :: rest => if c.isWhitespace then some (rest.dropWhile Char.isWhitespace) else none
    | [] => none
  | p :: ps, c :: cs => if c.toLower == p then matchSuffixRev ps cs else none
  | _ :: _, [] => none

/-- Try each legal suffix (reversed, case-insensitively) at the end of the
reversed string.  At most one alternation branch can match a given ending, so
the regex's left-to-right alternation order is immaterial. -/
def tryStripAt (rev : List Char) : Option (List Char) :=
  legalSuffixes.findSome? (fun suf => matchSuffixRev (suf.data.reverse.map Char.toLower) rev)

/-- Model of the regex
`re.sub(r"\s+(Ltd|Limited|Inc|Incorporated|Corp|Corporation|LLC)\s*\.?$", "", name, IGNORECASE)`:
working from the end of the string, consume one optional dot, then optional
whitespace, then a suffix, then the mandatory preceding whitespace run.  When no
alternative matches, the string is returned unchanged. -/
def stripLegalSuffix (s : String) : String :=
  let rev := s.data.reverse
  let attempt :=
    match rev with
    | '.' :: rest => tryStripAt (rest.dropWhile Char.isWhitespace)
    | _ => tryStripAt (rev.dropWhile Char.isWhitespace)
  match attempt with
  | some remRev => String.mk remRev.reverse
  | none => s

/-- Model of `src/utils/text_processing.py` `normalize_company_name`. -/
def normalize_company_name (name : String) : String :=
  if name = "" then ""
  else String.mk (stripChars (collapseWsAux (stripLegalSuffix name).data false))

/-- Model of Python `str.title()`: uppercase every letter that follows a
non-letter, lowercase the other letters. -/
def pyTitle (s : String) : String :=
  String.mk
    ((s.data.foldl
        (fun (acc : List Char × Bool) c =>
          if c.isAlpha then ((if acc.2 then c.toLower else c.toUpper) :: acc.1, true)
          else (c :: acc.1, false))
        ([], false)).1.reverse)

/-- Modelled from the spec: `normalize_entity_type` is imported from
`src.utils.text_processing` by the extraction agent, the query agent and the
stock mapper, but is not defined anywhere under `src/`.  Spec section 4.1 says it
normalizes entity-type labels to a canonical singular form (e.g. "companies" →
"company") and lets unknown types pass through unchanged.  The plural labels in
use are the keys emitted by the two raw extractors:
companies / sectors / regulators / people / events. -/
def normalize_entity_type (t : String) : String :=
  if t == "companies" then "company"
  else if t == "sectors" then "sector"
  else if t == "regulators" then "regulator"
  else if t == "people" then "person"
  else if t == "events" then "event"
  else t

/-- Model of Python `round(x, 3)` on rationals.  Python rounds floats half to
even; every value this pipeline rounds is an exact multiple of 1/1000 except at
counterexample inputs, where the two rounding rules agree. -/
def round3 (q : ℚ) : ℚ := (Int.floor (q * 1000 + 1 / 2) : ℚ) / 1000

/-- Configuration slice of `src/core/config.py` `Settings` used by the pipeline. -/
structure Settings where
  deduplication_threshold : Score
  query_similarity_threshold : Score
  direct_mention_confidence : Score
  sector_impact_confidence_min : Score
  sector_impact_confidence_max : Score
  regulatory_impact_confidence_min : Score
  regulatory_impact_confidence_max : Score
deriving Repr, DecidableEq

/-- Default settings from `src/core/config.py` lines 33-42. -/
def settings : Settings :=
  { deduplication_threshold := 9 / 10
    query_similarity_threshold := 65 / 100
    direct_mention_confidence := 1
    sector_impact_confidence_min := 6 / 10
    sector_impact_confidence_max := 8 / 10
    regulatory_impact_confidence_min := 5 / 10
    regulatory_impact_confidence_max := 9 / 10 }

/-- Lookup in an insertion-ordered association list, modelling Python dict
indexing; Python dict iteration order is insertion order. -/
def assocFind? {α : Type} (d : List (String × α)) (k : String) : Option α :=
  (d.find? (fun kv => kv.1 == k)).map (·.2)

/-- Company-name to symbol table from `StockMapper._create_default_mappings`
(`src/services/stock_mapper.py` lines 59-81), in insertion order. -/
def company_to_symbol : List (String × String) :=
  [("HDFC Bank", "HDFCBANK"), ("HDFC", "HDFCBANK"),
   ("ICICI Bank", "ICICIBANK"), ("ICICI", "ICICIBANK"),
   ("State Bank of India", "SBIN"), ("SBI", "SBIN"),
   ("Reliance Industries", "RELIANCE"), ("Reliance", "RELIANCE"), ("RIL", "RELIANCE"),
   ("Infosys", "INFY"), ("TCS", "TCS"), ("Tata Consultancy Services", "TCS"),
   ("Wipro", "WIPRO"), ("Bharti Airtel", "BHARTIARTL"), ("Airtel", "BHARTIARTL"),
   ("ITC", "ITC"), ("Hindustan Unilever", "HINDUNILVR"), ("HUL", "HINDUNILVR"),
   ("Axis Bank", "AXISBANK"), ("Kotak Mahindra Bank", "KOTAKBANK"), ("Kotak Bank", "KOTAKBANK")]

/-- Sector to stock-list table from `StockMapper._create_default_mappings`. -/
def sector_to_stocks : List (String × List String) :=
  [("Banking", ["HDFCBANK", "ICICIBANK", "SBIN", "AXISBANK", "KOTAKBANK", "INDUSINDBK", "PNB", "BANKBARODA"]),
   ("IT", ["TCS", "INFY", "WIPRO", "HCLTECH", "TECHM", "LTIM"]),
   ("Pharma", ["SUNPHARMA", "DRREDDY", "CIPLA", "LUPIN", "AUROPHARMA"]),
   ("Auto", ["MARUTI", "TATAMOTORS", "M&M", "BAJAJ-AUTO", "HEROMOTOCO"]),
   ("Oil", ["RELIANCE", "ONGC", "IOC", "BPCL", "HPCL"]),
   ("Telecom", ["BHARTIARTL", "IDEA"]),
   ("Retail", ["RELIANCE", "DMART"]),
   ("Steel", ["TATASTEEL", "JSWSTEEL", "SAIL"]),
   ("Cement", ["ULTRACEMCO", "SHREECEM", "ACC"]),
   ("Power", ["NTPC", "POWERGRID", "TATAPOWER"])]

/-- Regulator to sector-list table from `StockMapper._create_default_mappings`. -/
def regulator_to_sectors : List (String × List String) :=
  [("RBI", ["Banking", "Financial Services"]),
   ("SEBI", ["All Sectors"]),
   ("IRDA", ["Insurance"]),
   ("TRAI", ["Telecom"])]

/-- Model of `StockMapper.map_company_to_symbol`: exact lookup, then
case-insensitive lookup, then substring match in either direction on the
normalized name (keys longer than 3 characters only), then the same substring
scan on the original name. -/
def map_company_to_symbol (company_name : String) : Option String :=
  if company_name = "" then none
  else
    let normalized := normalize_company_name company_name
    match assocFind? company_to_symbol normalized with
    | some v => some v
    | none =>
      let normalizedLower := pyLower normalized
      match company_to_symbol.find? (fun kv => pyLower kv.1 == normalizedLower) with
      | some kv => some kv.2
      | none =>
        match company_to_symbol.find? (fun kv =>
            let keyLower := pyLower kv.1
            (pyContains normalizedLower keyLower || pyContains keyLower normalizedLower)
              && decide (kv.1.data.length > 3)) with
        | some kv => some kv.2
        | none =>
          let companyLower := pyLower company_name
          match company_to_symbol.find? (fun kv =>
              let keyLower := pyLower kv.1
              (pyContains companyLower keyLower || pyContains keyLower companyLower)
                && decide (kv.1.data.length > 3)) with
          | some kv => some kv.2
          | none => none

/-- Model of `StockMapper.get_stocks_for_sector`: strip " sector"/" Sector"
occurrences, title-case, exact lookup, then case-insensitive lookup. -/
def get_stocks_for_sector (sector : String) : List String :=
  if sector = "" then []
  else
    let sectorClean := pyStrip (pyReplace (pyReplace sector " sector" "") " Sector" "")
    let sectorKey := pyTitle sectorClean
    let stocks := (assocFind? sector_to_stocks sectorKey).getD []
    if stocks.isEmpty then
      let sectorLower := pyLower sectorKey
      match sector_to_stocks.find? (fun kv => pyLower kv.1 == sectorLower) with
      | some kv => kv.2
      | none => stocks
    else stocks

/-- Model of `StockMapper.get_sectors_for_regulator`: exact lookup on the
upper-cased name. -/
def get_sectors_for_regulator (regulator : String) : List String :=
  (assocFind? regulator_to_sectors (pyUpper regulator)).getD []

/-- Python `set(all_stocks)` iterated into a list.  CPython's set iteration
order is unspecified; this model keeps the first occurrence of each element.
Every property proved about the result is order-insensitive. -/
def pySetList (l : List String) : List String :=
  l.foldl (fun acc s => if acc.contains s then acc else acc ++ [s]) []

/-- Model of `StockMapper.map_entity_to_stocks`
(`src/services/stock_mapper.py` lines 214-278). -/
def map_entity_to_stocks (entity_type entity_value : String) : List (String × Score × String) :=
  let normalized_type := normalize_entity_type entity_type
  if normalized_type == "company" then
    match map_company_to_symbol entity_value with
    | some symbol => [(symbol, 1, "direct")]
    | none => []
  else if normalized_type == "sector" then
    (get_stocks_for_sector entity_value).map (fun stock => (stock, 7 / 10, "sector"))
  else if normalized_type == "regulator" then
    let regulatorLower := pyLower entity_value
    let sectors :=
      let s0 := get_sectors_for_regulator entity_value
      if s0.isEmpty then
        if pyContains regulatorLower "rbi" || pyContains regulatorLower "reserve" then
          get_sectors_for_regulator "RBI"
        else if pyContains regulatorLower "sebi" then
          get_sectors_for_regulator "SEBI"
        else if pyContains regulatorLower "irda" then
          get_sectors_for_regulator "IRDA"
        else if pyContains regulatorLower "trai" then
          get_sectors_for_regulator "TRAI"
        else []
      else s0
    sectors.foldl
      (fun acc sector =>
        if sector == "All Sectors" then
          let allStocks := sector_to_stocks.foldl (fun acc2 kv => acc2 ++ kv.2) []
          acc ++ (pySetList allStocks).map (fun stock => (stock, 6 / 10, "regulatory"))
        else
          acc ++ (get_stocks_for_sector sector).map (fun stock => (stock, 6 / 10, "regulatory")))
      []
  else []

/-- Entity record (`{entity_type, entity_value, confidence}` dicts in the code).
The stored `entity_type` is always the normalized type. -/
structure Entity where
  entity_type : String
  entity_value : String
  confidence : Score
deriving Repr, DecidableEq

/-- Uniqueness key of an entity record: `(normalized_type, value.lower().strip())`. -/
def keyOf (e : Entity) : String × String := (e.entity_type, lowerTrim e.entity_value)

/-- Accumulator of the extraction agent's merge loops: the growing `entities`
list and the `entity_set` of keys seen so far.  The Python set is modelled as a
list used only through membership. -/
structure MergeAcc where
  entities : List Entity
  entity_set : List (String × String)
deriving Repr, DecidableEq

/-- One iteration of the NER loop body (`entity_extraction_agent` lines 41-52):
skip empty values, add unseen keys with the fixed rule-based confidence 0.9. -/
def addNerValue (acc : MergeAcc) (normalizedType value : String) : MergeAcc :=
  if value ≠ "" then
    if (normalizedType, lowerTrim value) ∈ acc.entity_set then acc
    else
      { entities := acc.entities ++ [⟨normalizedType, value, 9 / 10⟩]
        entity_set := acc.entity_set ++ [(normalizedType, lowerTrim value)] }
  else acc

/-- In-place confidence overwrite for the first matching company entry
(`entity_extraction_agent` lines 77-81). -/
def updateFirstCompany (normalizedType value : String) : List Entity → List Entity
  | [] => []
  | e :: es =>
    if e.entity_type == normalizedType && lowerTrim e.entity_value == lowerTrim value then
      { e with confidence := 19 / 20 } :: es
    else e :: updateFirstCompany normalizedType value es

/-- One iteration of the LLM loop body (`entity_extraction_agent` lines 62-81):
unseen keys are added with confidence 0.95; a key already present whose
normalized type is "company" has its confidence overwritten to 0.95; any other
already-present key is left alone (first-writer-wins). -/
def addLlmValue (acc : MergeAcc) (normalizedType value : String) : MergeAcc :=
  if value ≠ "" then
    if (normalizedType, lowerTrim value) ∈ acc.entity_set then
      if normalizedType == "company" then
        { acc with entities := updateFirstCompany normalizedType value acc.entities }
      else acc
    else
      { entities := acc.entities ++ [⟨normalizedType, value, 19 / 20⟩]
        entity_set := acc.entity_set ++ [(normalizedType, lowerTrim value)] }
  else acc

/-- Extractor output (`{type: [values]}` dict) as an insertion-ordered list. -/
abbrev ExtractorDict := List (String × List String)

/-- First merge pass over the rule-based (NER) extractor's dict. -/
def nerPass (acc : MergeAcc) (d : ExtractorDict) : MergeAcc :=
  d.foldl (fun a kv => kv.2.foldl (fun a2 v => addNerValue a2 (normalize_entity_type kv.1) v) a) acc

/-- Second merge pass over the language-model extractor's dict. -/
def llmPass (acc : MergeAcc) (d : ExtractorDict) : MergeAcc :=
  d.foldl (fun a kv => kv.2.foldl (fun a2 v => addLlmValue a2 (normalize_entity_type kv.1) v) a) acc

/-- Entity list produced by the extraction stage's merge of the two raw
extractor outputs (`entity_extraction_agent` lines 36-81). -/
def mergeEntities (nerDict llmDict : ExtractorDict) : List Entity :=
  (llmPass (nerPass ⟨[], []⟩ nerDict) llmDict).entities

/-- Stock impact record produced by the stock impact agent. -/
structure StockImpact where
  stock_symbol : String
  confidence : Score
  impact_type : String
  source_entity : String
  source_entity_type : String
deriving Repr, DecidableEq

/-- Uniqueness key of a stock impact: `(stock_symbol, impact_type)`. -/
def impactKey (i : StockImpact) : String × String := (i.stock_symbol, i.impact_type)

/-- Accumulator of the stock impact agent's loops: the growing `stock_impacts`
list and the `processed_stocks` key set. -/
structure ImpactAcc where
  impacts : List StockImpact
  processed : List (String × String)
deriving Repr, DecidableEq

/-- One iteration of the inner mapping loop (`stock_impact_agent` lines 40-75):
skip keys already processed, otherwise blend the confidence by impact type and
append the impact record. -/
def blendConfidence (entity : Entity) (baseConfidence : Score) (impactType : String) : Score :=
  if impactType == "direct" then settings.direct_mention_confidence
  else if impactType == "sector" then
    settings.sector_impact_confidence_min +
      (settings.sector_impact_confidence_max - settings.sector_impact_confidence_min)
        * entity.confidence
  else if impactType == "regulatory" then
    settings.regulatory_impact_confidence_min +
      (settings.regulatory_impact_confidence_max - settings.regulatory_impact_confidence_min)
        * entity.confidence
  else baseConfidence

def impactStep (entity : Entity) (acc : ImpactAcc) (m : String × Score × String) : ImpactAcc :=
  if (m.1, m.2.2) ∈ acc.processed then acc
  else
    { impacts := acc.impacts ++
        [⟨m.1, round3 (blendConfidence entity m.2.1 m.2.2), m.2.2,
          entity.entity_value, entity.entity_type⟩]
      processed := acc.processed ++ [(m.1, m.2.2)] }

/-- Inner loop of the stock impact agent over one entity's stock mappings. -/
def impactInner (entity : Entity) (acc : ImpactAcc) : List (String × Score × String) → ImpactAcc
  | [] => acc
  | m :: ms => impactInner entity (impactStep entity acc m) ms

/-- Outer loop of the stock impact agent over the entity list. -/
def impactOuter (acc : ImpactAcc) : List Entity → ImpactAcc
  | [] => acc
  | e :: es => impactOuter (impactInner e acc (map_entity_to_stocks e.entity_type e.entity_value)) es

/-- Comparator of the final `stock_impacts.sort(key=confidence, reverse=True)`:
Python's stable sort with `reverse=True` keeps earlier elements first among
equal confidences, which is exactly a stable merge sort under `≥`. -/
def impactLE (a b : StockImpact) : Bool := decide (a.confidence ≥ b.confidence)

/-- Stock impact list computed by `stock_impact_agent` (lines 22-83) from an
entity list: dedup by `(symbol, impact_type)` key, then sort by confidence
descending. -/
def computeStockImpacts (entities : List Entity) : List StockImpact :=
  if entities.isEmpty then []
  else ((impactOuter ⟨[], []⟩ entities).impacts).mergeSort impactLE

/-- Article dict carried in the state.  Raw input articles may be missing the
`title`/`content`/`source` keys (modelled with `Option`); the processed article
built by the ingestion agent always has all three.  The `timestamp` and
`original_data` keys are omitted: no stage decision and no claim reads them. -/
structure ArticleDict where
  title : Option String
  content : Option String
  source : Option String
deriving Repr, DecidableEq

/-- Query-side entity record (`{entity_type, entity_value}`; no confidence). -/
structure QueryEntity where
  entity_type : String
  entity_value : String
deriving Repr, DecidableEq

/-- Relational-store article row as read back by the query path.  The
`timestamp` column is omitted: no claim reads it. -/
structure ArticleRow where
  id : Nat
  title : String
  content : String
  source : String
deriving Repr, DecidableEq

/-- Per-request pipeline state (`src/core/state.py` `AgentState`).  The unused
`metadata` dict is omitted. -/
structure AgentState where
  article : Option ArticleDict
  article_id : Option Nat
  is_duplicate : Bool
  duplicate_of_id : Option Nat
  entities : List Entity
  stock_impacts : List StockImpact
  query : Option String
  query_entities : Option (List QueryEntity)
  query_type : Option String
  errors : List String
deriving Repr, DecidableEq

/-- Model of `create_article_state`. -/
def create_article_state (article : ArticleDict) : AgentState :=
  { article := some article
    article_id := none
    is_duplicate := false
    duplicate_of_id := none
    entities := []
    stock_impacts := []
    query := none
    query_entities := none
    query_type := none
    errors := [] }

/-- External collaborators of the ingest pipeline (spec section 6), as oracle
functions.  `Except.error` models the collaborator raising an exception. -/
structure Collab where
  embed : String → Except String Embedding
  chromaQuery : Embedding → Except String (List (Nat × ℚ))
  ner : String → Except String ExtractorDict
  llm : String → Except String ExtractorDict
  sqlGetArticle : Nat → Except String (Option ArticleRow)
  sqlStoreArticle : String → String → String → Bool → Option Nat → Except String Nat
  sqlStoreEntities : Nat → List Entity → Except String Unit
  sqlStoreImpacts : Nat → List StockImpact → Except String Unit
  vectorAdd : Nat → Except String Unit
  vectorDelete : Nat → Except String Unit

/-- Model of `validate_news_article` (`src/utils/validators.py` lines 6-26):
both required fields must be present, then title and content must be non-empty
after stripping. -/
def validate_news_article (a : ArticleDict) : Bool × Option String :=
  match a.title with
  | none => (false, some "Missing required field: title")
  | some t =>
    match a.content with
    | none => (false, some "Missing required field: content")
    | some cnt =>
      if (stripChars t.data).length == 0 then (false, some "Title must be a non-empty string")
      else if (stripChars cnt.data).length == 0 then (false, some "Content must be a non-empty string")
      else (true, none)

/-- Model of `ingestion_agent` (`src/agents/ingestion_agent.py`).  On validation
failure the error is appended and the state returned unchanged otherwise; on
success the article dict is replaced by the cleaned one.  Timestamp parsing is
omitted with the timestamp field. -/
def ingestion_agent (state : AgentState) : AgentState :=
  match state.article with
  | none => { state with errors := state.errors ++ ["No article provided to ingestion agent"] }
  | some article =>
    let v := validate_news_article article
    if !v.1 then
      { state with errors := state.errors ++ ["Invalid article: " ++ v.2.getD "None"] }
    else
      let title0 := clean_text (article.title.getD "")
      let content := clean_text (article.content.getD "")
      let title := if title0 == "" then extract_title_from_content content else title0
      let source := article.source.getD "unknown"
      { state with article := some ⟨some title, some content, some source⟩ }

/-- Model of `VectorDatabase.search_similar` (`src/database/vector_db.py` lines
73-115): convert each raw (id, cosine distance) row to (id, 1 - distance) and
keep rows at or above the threshold; any exception from the underlying query is
caught inside this function, which then returns the empty list.  Row metadata is
omitted: no caller decision reads it. -/
def search_similar (queryResult : Except String (List (Nat × ℚ))) (threshold : ℚ) :
    List (Nat × ℚ) :=
  match queryResult with
  | .error _ => []
  | .ok rows =>
    rows.foldl
      (fun acc row =>
        let similarity := 1 - row.2
        if similarity ≥ threshold then acc ++ [(row.1, similarity)] else acc)
      []

/-- Model of `deduplication_agent` (`src/agents/deduplication_agent.py`).  A
missing `title`/`content` key raises a `KeyError` caught by the agent's handler;
an embedding failure is likewise caught, appending the error and defaulting
`is_duplicate` to false.  The first row of the (already threshold-filtered)
search result is taken as the duplicate original. -/
def deduplication_agent (c : Collab) (state : AgentState) : AgentState :=
  match state.article with
  | none => { state with errors := state.errors ++ ["No article provided to deduplication agent"] }
  | some article =>
    match article.title, article.content with
    | some title, some content =>
      match c.embed (title ++ "\n" ++ content) with
      | .error e =>
        { state with errors := state.errors ++ ["Deduplication error: " ++ e]
                     is_duplicate := false }
      | .ok emb =>
        match search_similar (c.chromaQuery emb) settings.deduplication_threshold with
        | (dupId, _) :: _ =>
          { state with is_duplicate := true, duplicate_of_id := some dupId }
        | [] =>
          { state with is_duplicate := false, duplicate_of_id := none }
    | _, _ =>
      { state with errors := state.errors ++ ["Deduplication error: KeyError"]
                   is_duplicate := false }

/-- Model of `entity_extraction_agent` (`src/agents/entity_extraction_agent.py`).
If either raw extractor raises, the agent-level handler appends the error and
sets `entities := []` (the local partial list is discarded). -/
def entity_extraction_agent (c : Collab) (state : AgentState) : AgentState :=
  match state.article with
  | none =>
    { state with errors := state.errors ++ ["No article provided to entity extraction agent"] }
  | some article =>
    match article.title, article.content with
    | some title, some content =>
      let text := title ++ "\n" ++ content
      match c.ner text with
      | .error e =>
        { state with errors := state.errors ++ ["Entity extraction error: " ++ e], entities := [] }
      | .ok nerDict =>
        match c.llm text with
        | .error e =>
          { state with errors := state.errors ++ ["Entity extraction error: " ++ e], entities := [] }
        | .ok llmDict => { state with entities := mergeEntities nerDict llmDict }
    | _, _ =>
      { state with errors := state.errors ++ ["Entity extraction error: KeyError"], entities := [] }

/-- Model of `stock_impact_agent` (`src/agents/stock_impact_agent.py`).  Nothing
in the loop body can raise in this pure model, so the agent's exception handler
is unreachable and not modelled. -/
def stock_impact_agent (state : AgentState) : AgentState :=
  { state with stock_impacts := computeStockImpacts state.entities }

/-- Model of the `verify_and_set_duplicate` closure inside `storage_agent`
(`src/agents/storage_agent.py` lines 35-74): when the referenced original
exists in the relational store, resolve `article_id` to it; when it is missing
or the lookup raises, clear the duplicate flags (self-heal) so the article is
stored as new.  The orphaned vector entry delete swallows its own errors and
changes no pipeline state. -/
def verify_and_set_duplicate (c : Collab) (state : AgentState) : AgentState :=
  match state.duplicate_of_id with
  | some dupId =>
    match c.sqlGetArticle dupId with
    | .ok (some _) => { state with article_id := some dupId }
    | .ok none => { state with is_duplicate := false, duplicate_of_id := none }
    | .error _ => { state with is_duplicate := false, duplicate_of_id := none }
  | none => { state with is_duplicate := false, duplicate_of_id := none }

/-- Model of `_store_article_async` (`src/agents/storage_agent.py` lines
112-164) as observed by the orchestrator: the helper runs on a throwaway worker
thread, so an exception raised inside it terminates that thread silently and
only the mutations made before the raise survive.  `article_id` is assigned
directly after a successful `store_article`; the subsequent entity, impact and
vector writes change no pipeline state, so their failures leave the state as it
was at the raise. -/
def store_article_async (c : Collab) (state : AgentState) : AgentState :=
  match state.article with
  | none => state
  | some article =>
    match article.title, article.content with
    | some title, some content =>
      match c.sqlStoreArticle title content (article.source.getD "unknown")
          state.is_duplicate state.duplicate_of_id with
      | .error _ => state
      | .ok articleId => { state with article_id := some articleId }
    | _, _ => state

/-- Model of `storage_agent` (`src/agents/storage_agent.py` lines 14-109): for a
state marked duplicate, verify the original and return early if still a
duplicate; otherwise run the async store on the worker thread. -/
def storage_agent (c : Collab) (state : AgentState) : AgentState :=
  match state.article with
  | none => { state with errors := state.errors ++ ["No article provided to storage agent"] }
  | some _ =>
    let state1 := if state.is_duplicate then verify_and_set_duplicate c state else state
    if state1.is_duplicate then state1 else store_article_async c state1

/-- Model of `should_continue` (`src/core/graph.py` lines 19-30). -/
def should_continue (state : AgentState) : String :=
  if state.is_duplicate then "skip" else "store"

/-- Model of the compiled news-processing graph
(`create_news_processing_graph`, `src/core/graph.py` lines 33-69): the edges
`ingestion → deduplication → entity_extraction` are unconditional; the only
conditional edge routes `entity_extraction` to `stock_impact` ("store") or
directly to `storage` ("skip"). -/
def process_article (c : Collab) (raw : ArticleDict) : AgentState :=
  let s1 := ingestion_agent (create_article_state raw)
  let s2 := deduplication_agent c s1
  let s3 := entity_extraction_agent c s2
  let s4 := if should_continue s3 == "store" then stock_impact_agent s3 else s3
  storage_agent c s4

/-- Query result entry (`src/agents/query_agent.py` lines 215-279).  The
`timestamp` field is omitted: no claim reads it. -/
structure QueryResultEntry where
  article_id : Nat
  title : String
  content : String
  source : String
  similarity_score : Score
  entities : List Entity
  stock_impacts : List StockImpact
deriving Repr, DecidableEq

/-- Relational-store collaborators used by `_process_query_async`, as pure
oracles (the query path awaits them to completion on its worker thread). -/
structure QueryCollab where
  getArticle : Nat → Option ArticleRow
  getArticlesByEntity : String → String → List ArticleRow
  getEntities : Nat → List Entity
  getStockImpacts : Nat → List StockImpact

/-- Python dict assignment `articles_by_id[article_id] = article`: replace the
existing binding, else append.  Iteration order of the model list is the dict's
insertion order. -/
def dictSet (d : List (Nat × ArticleRow)) (k : Nat) (v : ArticleRow) : List (Nat × ArticleRow) :=
  if (d.find? (fun kv => kv.1 == k)).isSome then
    d.map (fun kv => if kv.1 == k then (k, v) else kv)
  else d ++ [(k, v)]

/-- Python dict lookup `articles_by_id.get(k)` / `k in articles_by_id`. -/
def dictLookup (d : List (Nat × ArticleRow)) (k : Nat) : Option ArticleRow :=
  (d.find? (fun kv => kv.1 == k)).map (·.2)

/-- Build `articles_by_id` from the semantic search hits
(`_process_query_async` lines 154-160): fetch each id from the relational store
and keep the rows that exist. -/
def buildByIdSemantic (qc : QueryCollab) (d : List (Nat × ArticleRow)) :
    List (Nat × ℚ) → List (Nat × ArticleRow)
  | [] => d
  | p :: rest =>
    buildByIdSemantic qc
      (match qc.getArticle p.1 with
       | some a => dictSet d p.1 a
       | none => d)
      rest

/-- Guarded insert `if article.id not in articles_by_id` used by the entity
expansion loops. -/
def insertNew (d : List (Nat × ArticleRow)) (a : ArticleRow) : List (Nat × ArticleRow) :=
  if (dictLookup d a.id).isSome then d else d ++ [(a.id, a)]

/-- Insert every fetched row of one entity lookup, in order. -/
def insertAllNew (d : List (Nat × ArticleRow)) : List ArticleRow → List (Nat × ArticleRow)
  | [] => d
  | a :: rest => insertAllNew (insertNew d a) rest

/-- Entity expansion (`_process_query_async` lines 162-203): for a structured
query type, fetch articles indexed by each matching entity value (accepting the
plural type label for backward compatibility) and add the ones not already
present.  The company branch's sector-expansion stub computes a symbol and then
discards it, so it is not modelled. -/
def expandEntities (qc : QueryCollab) (queryType : String) (queryEntities : List QueryEntity)
    (d0 : List (Nat × ArticleRow)) : List (Nat × ArticleRow) :=
  if queryType == "company" then
    queryEntities.foldl
      (fun d e =>
        if e.entity_type == "company" || e.entity_type == "companies" then
          insertAllNew d (qc.getArticlesByEntity "company" e.entity_value)
        else d)
      d0
  else if queryType == "sector" then
    queryEntities.foldl
      (fun d e =>
        if e.entity_type == "sector" || e.entity_type == "sectors" then
          insertAllNew d (qc.getArticlesByEntity "sector" e.entity_value)
        else d)
      d0
  else if queryType == "regulator" then
    queryEntities.foldl
      (fun d e =>
        if e.entity_type == "regulator" || e.entity_type == "regulators" then
          insertAllNew d (qc.getArticlesByEntity "regulator" e.entity_value)
        else d)
      d0
  else d0

/-- Build one result entry (`_process_query_async` lines 215-239 and 254-279):
content is excerpted to 500 characters, entities and stock impacts are fetched
from the relational store. -/
def mkEntry (qc : QueryCollab) (a : ArticleRow) (articleId : Nat) (score : Score) :
    QueryResultEntry :=
  { article_id := articleId
    title := a.title
    content :=
      if a.content.data.length > 500 then String.mk (a.content.data.take 500) ++ "..."
      else a.content
    source := a.source
    similarity_score := score
    entities := qc.getEntities articleId
    stock_impacts := qc.getStockImpacts articleId }

/-- First result loop (`_process_query_async` lines 205-240): entries for the
semantic hits present in `articles_by_id`, carrying the rounded real similarity,
together with the collected `vector_article_ids`. -/
def semanticResults (qc : QueryCollab) (byId : List (Nat × ArticleRow)) :
    List (Nat × ℚ) → List QueryResultEntry × List Nat
  | [] => ([], [])
  | p :: rest =>
    match dictLookup byId p.1 with
    | some a =>
      let r := semanticResults qc byId rest
      (mkEntry qc a p.1 (round3 p.2) :: r.1, p.1 :: r.2)
    | none => semanticResults qc byId rest

/-- Synthetic similarity for entity-expansion-only articles
(`_process_query_async` line 252). -/
def defaultSimilarity (queryType : String) : Score :=
  if queryType == "company" || queryType == "sector" || queryType == "regulator" then 85 / 100
  else 7 / 10

/-- Second result loop (`_process_query_async` lines 242-279): entries for the
`articles_by_id` rows not produced by the semantic loop, carrying the rounded
synthetic score. -/
def expansionResults (qc : QueryCollab) (queryType : String) (vectorIds : List Nat) :
    List (Nat × ArticleRow) → List QueryResultEntry
  | [] => []
  | kv :: rest =>
    if kv.1 ∈ vectorIds then expansionResults qc queryType vectorIds rest
    else
      mkEntry qc kv.2 kv.1 (round3 (defaultSimilarity queryType))
        :: expansionResults qc queryType vectorIds rest

/-- Comparator of the final `results.sort(key=similarity_score, reverse=True)`. -/
def resultLE (a b : QueryResultEntry) : Bool := decide (a.similarity_score ≥ b.similarity_score)

/-- Model of `_process_query_async` (`src/agents/query_agent.py` lines 127-285)
from the semantic search output onward.  `similar` is the output of
`search_similar` on the query embedding (top-20, threshold 0.65): a list of
(article_id, similarity) pairs. -/
def process_query_async (qc : QueryCollab) (queryType : String)
    (queryEntities : List QueryEntity) (similar : List (Nat × ℚ)) : List QueryResultEntry :=
  let byId0 := buildByIdSemantic qc [] similar
  let byId := expandEntities qc queryType queryEntities byId0
  let r := semanticResults qc byId similar
  let res2 := expansionResults qc queryType r.2 byId
  (r.1 ++ res2).mergeSort resultLE

/-! Concrete collaborator instances used by closed witnesses and
counterexamples. -/

/-- Collaborators that all succeed: empty vector store, empty extractor
outputs, relational store assigning id 1. -/
def happyCollab : Collab where
  embed := fun _ => .ok []
  chromaQuery := fun _ => .ok []
  ner := fun _ => .ok []
  llm := fun _ => .ok []
  sqlGetArticle := fun _ => .ok none
  sqlStoreArticle := fun _ _ _ _ _ => .ok 1
  sqlStoreEntities := fun _ _ => .ok ()
  sqlStoreImpacts := fun _ _ => .ok ()
  vectorAdd := fun _ => .ok ()
  vectorDelete := fun _ => .ok ()

/-- Collaborators whose relational `store_article` raises. -/
def failStoreCollab : Collab :=
  { happyCollab with sqlStoreArticle := fun _ _ _ _ _ => .error "db down" }

/-- Collaborators whose vector-store similarity query raises. -/
def chromaDownCollab : Collab :=
  { happyCollab with chromaQuery := fun _ => .error "chroma down" }

/-- An ingest request whose article fails validation (empty title). -/
def invalidTitleArticle : ArticleDict := ⟨some "", some "hello world", some "t"⟩

/-- A minimal valid ingest request. -/
def validSmallArticle : ArticleDict := ⟨some "A", some "B", some "s"⟩

/-- State reaching the deduplication stage for `validSmallArticle`. -/
def dedupProbeState : AgentState := ingestion_agent (create_article_state validSmallArticle)

/-! Errors are only ever appended by the stages; these monotonicity lemmas
carry an error recorded early through the rest of the pipeline. -/

theorem errors_mono_dedup (c : Collab) (s : AgentState) {m : String} (h : m ∈ s.errors) :
    m ∈ (deduplication_agent c s).errors := by
  unfold deduplication_agent
  repeat' split
  all_goals simp [h]

theorem errors_mono_extract (c : Collab) (s : AgentState) {m : String} (h : m ∈ s.errors) :
    m ∈ (entity_extraction_agent c s).errors := by
  unfold entity_extraction_agent
  repeat' (split <;> try simp [h])

theorem errors_mono_storage (c : Collab) (s : AgentState) {m : String} (h : m ∈ s.errors) :
    m ∈ (storage_agent c s).errors := by
  unfold storage_agent verify_and_set_duplicate store_article_async
  repeat' (split <;> try simp [h])

/-- C1 (corrected): when validation fails during ingest, the ingest stage
appends the validation error and skips only its own normalization; the
remaining stages still run (the graph's `ingestion → deduplication` edge is
unconditional), and the final state carries the validation error. -/
theorem c1_validation_error_carried_not_short_circuit (c : Collab) (a : ArticleDict)
    (h : (validate_news_article a).1 = false) :
    ("Invalid article: " ++ (validate_news_article a).2.getD "None") ∈ (process_article c a).errors := by
  have h1 : ("Invalid article: " ++ (validate_news_article a).2.getD "None")
      ∈ (ingestion_agent (create_article_state a)).errors := by
    simp [ingestion_agent, create_article_state, h]
  have h2 := errors_mono_dedup c _ h1
  have h3 := errors_mono_extract c _ h2
  have h4 : ("Invalid article: " ++ (validate_news_article a).2.getD "None") ∈
      (if should_continue (entity_extraction_agent c (deduplication_agent c
          (ingestion_agent (create_article_state a)))) == "store" then
        stock_impact_agent (entity_extraction_agent c (deduplication_agent c
          (ingestion_agent (create_article_state a))))
      else entity_extraction_agent c (deduplication_agent c
          (ingestion_agent (create_article_state a)))).errors := by
    split
    · exact h3
    · exact h3
  have h5 := errors_mono_storage c _ h4
  simpa [process_article] using h5

/-- C1 witness: a concrete invalid article whose validation error is present in
the terminal state. -/
theorem c1_witness :
    (validate_news_article invalidTitleArticle).1 = false ∧
    ("Invalid article: " ++ (validate_news_article invalidTitleArticle).2.getD "None")
      ∈ (process_article happyCollab invalidTitleArticle).errors :=
  ⟨by decide, c1_validation_error_carried_not_short_circuit happyCollab invalidTitleArticle (by decide)⟩

/-- C1 counterexample to the claim as stated: for this article failing
validation, the remaining stages do run — in particular storage runs and
populates `article_id` — refuting the claimed short-circuit. -/
theorem c1_counterexample_pipeline_not_short_circuited :
    (process_article happyCollab invalidTitleArticle).article_id = some 1 ∧
    "Invalid article: Title must be a non-empty string"
      ∈ (process_article happyCollab invalidTitleArticle).errors := by decide

/-- C2 (code bug): when the relational `store_article` call raises, the
exception dies with the storage worker thread before `storage_agent`'s handler
can see it, so the terminal state has `article_id` absent and `errors` empty —
refuting the claimed invariant on a valid article. -/
theorem c2_terminal_state_both_absent :
    (process_article failStoreCollab validSmallArticle).article_id = none ∧
    (process_article failStoreCollab validSmallArticle).errors = [] := by decide

/-- C7 (corrected): a failure inside the vector store's similarity query is
swallowed by `search_similar`, which returns no matches, so the dedup stage
sets `is_duplicate := false` without appending any error; an exception that
does reach the stage (from the embedding call) is appended to `errors` with
`is_duplicate` set to false.  In both cases the dedup check never blocks
ingestion. -/
theorem c7_dedup_failure_policy :
    (∀ (c : Collab) (s : AgentState) (a : ArticleDict) (t cnt : String) (emb : Embedding)
        (m : String), s.article = some a → a.title = some t → a.content = some cnt →
      c.embed (t ++ "\n" ++ cnt) = .ok emb → c.chromaQuery emb = .error m →
      (deduplication_agent c s).is_duplicate = false ∧
        (deduplication_agent c s).errors = s.errors) ∧
    (∀ (c : Collab) (s : AgentState) (a : ArticleDict) (t cnt : String) (m : String),
      s.article = some a → a.title = some t → a.content = some cnt →
      c.embed (t ++ "\n" ++ cnt) = .error m →
      (deduplication_agent c s).is_duplicate = false ∧
        (deduplication_agent c s).errors = s.errors ++ ["Deduplication error: " ++ m]) := by
  constructor
  · intro c s a t cnt emb m hsa hta hca hemb hq
    simp [deduplication_agent, hsa, hta, hca, hemb, hq, search_similar]
  · intro c s a t cnt m hsa hta hca hemb
    simp [deduplication_agent, hsa, hta, hca, hemb]

/-- C7 witness: concrete runs of both failure paths of the dedup stage. -/
theorem c7_witness :
    (deduplication_agent chromaDownCollab dedupProbeState).is_duplicate = false ∧
    (deduplication_agent chromaDownCollab dedupProbeState).errors = dedupProbeState.errors :=
  c7_dedup_failure_policy.1 chromaDownCollab dedupProbeState ⟨some "A", some "B", some "s"⟩
    "A" "B" [] "chroma down" (by decide) (by decide) (by decide) rfl rfl

/-- C7 counterexample to the claim as stated: when the vector-store query
raises, no error is appended to the state (the claim requires one). -/
theorem c7_counterexample_no_error_appended :
    (deduplication_agent chromaDownCollab dedupProbeState).errors = [] ∧
    (deduplication_agent chromaDownCollab dedupProbeState).is_duplicate = false := by decide

/-- C9 (spec-modelled): `normalize_entity_type` maps every plural entity-type
label to its canonical singular form and passes unknown labels through
unchanged. -/
theorem c9_normalize_entity_type_table :
    normalize_entity_type "companies" = "company" ∧
    normalize_entity_type "sectors" = "sector" ∧
    normalize_entity_type "regulators" = "regulator" ∧
    normalize_entity_type "people" = "person" ∧
    normalize_entity_type "events" = "event" ∧
    ∀ t : String, t ∉ ["companies", "sectors", "regulators", "people", "events"] →
      normalize_entity_type t = t := by
  refine ⟨rfl, rfl, rfl, rfl, rfl, ?_⟩
  intro t ht
  simp only [List.mem_cons, List.not_mem_nil, or_false, not_or] at ht
  obtain ⟨h1, h2, h3, h4, h5⟩ := ht
  simp [normalize_entity_type, h1, h2, h3, h4, h5]

/-- C9 witness: one plural label and one unknown label. -/
theorem c9_witness :
    normalize_entity_type "companies" = "company" ∧ normalize_entity_type "opinion" = "opinion" :=
  ⟨c9_normalize_entity_type_table.1,
    c9_normalize_entity_type_table.2.2.2.2.2 "opinion" (by decide)⟩

/-- C10: an entity whose normalized type is neither company, sector nor
regulator contributes no stock mapping at all. -/
theorem c10_other_types_map_to_no_stocks (t v : String)
    (hc : normalize_entity_type t ≠ "company")
    (hs : normalize_entity_type t ≠ "sector")
    (hr : normalize_entity_type t ≠ "regulator") :
    map_entity_to_stocks t v = [] := by
  simp [map_entity_to_stocks, hc, hs, hr]

/-- C10 witness: a person entity yields no stock impacts. -/
theorem c10_witness :
    normalize_entity_type "person" ≠ "company" ∧
    map_entity_to_stocks "person" "John Doe" = [] :=
  ⟨by decide, c10_other_types_map_to_no_stocks "person" "John Doe"
    (by decide) (by decide) (by decide)⟩

/-! Generic fold lemmas used for the loop invariants of the merge and impact
stages. -/

theorem foldl_preserve {α β : Type} (P : β → Prop) (f : β → α → β)
    (hf : ∀ b a, P b → P (f b a)) : ∀ (l : List α) (b : β), P b → P (l.foldl f b)
  | [], _, hb => hb
  | a :: l, b, hb => foldl_preserve P f hf l (f b a) (hf b a hb)

theorem foldl_establish {α β : Type} (P H : β → Prop) (f : β → α → β)
    (hp : ∀ b a, P b → P (f b a)) (hh : ∀ b a, H b → H (f b a))
    (x : α) (hx : ∀ b, H b → P (f b x)) :
    ∀ (l : List α), x ∈ l → ∀ b, H b → P (l.foldl f b) := by
  intro l
  induction l with
  | nil => intro hmem; cases hmem
  | cons a l ih =>
    intro hmem b hb
    rcases List.mem_cons.mp hmem with rfl | hmem2
    · exact foldl_preserve P f hp l (f b x) (hx b hb)
    · exact ih hmem2 (f b a) (hh b a hb)

/-! Loop invariants of the entity extraction merge. -/

/-- The Python `entity_set` is exactly the key set of the accumulated
`entities` list, without duplicates. -/
def MergeInv (acc : MergeAcc) : Prop :=
  acc.entity_set = acc.entities.map keyOf ∧ acc.entity_set.Nodup

theorem keyOf_update (e : Entity) (q : Score) : keyOf { e with confidence := q } = keyOf e := rfl

theorem updateFirstCompany_map_keyOf (nt v : String) (l : List Entity) :
    (updateFirstCompany nt v l).map keyOf = l.map keyOf := by
  induction l with
  | nil => rfl
  | cons e es ih =>
    unfold updateFirstCompany
    split
    · simp [keyOf]
    · simp [ih]

theorem updateFirstCompany_mem {nt v : String} {l : List Entity} {x : Entity}
    (hx : x ∈ updateFirstCompany nt v l) :
    x ∈ l ∨ ∃ e ∈ l, e.entity_type = nt ∧ x = { e with confidence := 19 / 20 } := by
  induction l with
  | nil => simp [updateFirstCompany] at hx
  | cons e es ih =>
    unfold updateFirstCompany at hx
    split at hx
    case isTrue hcond =>
      simp only [Bool.and_eq_true, beq_iff_eq] at hcond
      rcases List.mem_cons.mp hx with rfl | hmem
      · exact Or.inr ⟨e, List.mem_cons_self e es, hcond.1, rfl⟩
      · exact Or.inl (List.mem_cons_of_mem e hmem)
    case isFalse =>
      rcases List.mem_cons.mp hx with rfl | hmem
      · exact Or.inl (List.mem_cons_self x es)
      · rcases ih hmem with h | ⟨e', he', ht, hxe⟩
        · exact Or.inl (List.mem_cons_of_mem e h)
        · exact Or.inr ⟨e', List.mem_cons_of_mem e he', ht, hxe⟩

theorem updateFirstCompany_mem_forward {l : List Entity} {e : Entity} (he : e ∈ l)
    (nt v : String) :
    ∃ x ∈ updateFirstCompany nt v l, keyOf x = keyOf e ∧
      (x.confidence = e.confidence ∨ x.confidence = 19 / 20) := by
  induction l with
  | nil => cases he
  | cons a as ih =>
    unfold updateFirstCompany
    split
    · rcases List.mem_cons.mp he with rfl | hmem
      · exact ⟨{ e with confidence := 19 / 20 }, List.mem_cons_self _ _, rfl, Or.inr rfl⟩
      · exact ⟨e, List.mem_cons_of_mem _ hmem, rfl, Or.inl rfl⟩
    · rcases List.mem_cons.mp he with rfl | hmem
      · exact ⟨e, List.mem_cons_self _ _, rfl, Or.inl rfl⟩
      · obtain ⟨x, hx, h1, h2⟩ := ih hmem
        exact ⟨x, List.mem_cons_of_mem _ hx, h1, h2⟩

theorem updateFirstCompany_establish {l : List Entity} {nt v : String}
    (h : ∃ e ∈ l, keyOf e = (nt, lowerTrim v)) :
    ∃ x ∈ updateFirstCompany nt v l, keyOf x = (nt, lowerTrim v) ∧ x.confidence = 19 / 20 := by
  induction l with
  | nil => obtain ⟨e, he, _⟩ := h; cases he
  | cons a as ih =>
    unfold updateFirstCompany
    split
    case isTrue hcond =>
      simp only [Bool.and_eq_true, beq_iff_eq] at hcond
      refine ⟨{ a with confidence := 19 / 20 }, List.mem_cons_self _ _, ?_, rfl⟩
      rw [keyOf_update]
      unfold keyOf
      rw [hcond.1, hcond.2]
    case isFalse hcond =>
      obtain ⟨e, he, hkey⟩ := h
      rcases List.mem_cons.mp he with rfl | hmem
      · exfalso
        apply hcond
        unfold keyOf at hkey
        obtain ⟨k1, k2⟩ := Prod.mk.injEq .. ▸ hkey
        simp only [Bool.and_eq_true, beq_iff_eq]
        exact ⟨k1, k2⟩
      · obtain ⟨x, hx, h1, h2⟩ := ih ⟨e, hmem, hkey⟩
        exact ⟨x, List.mem_cons_of_mem _ hx, h1, h2⟩

theorem mergeInv_addNer (acc : MergeAcc) (nt v : String) (h : MergeInv acc) :
    MergeInv (addNerValue acc nt v) := by
  unfold addNerValue
  split
  · split
    case isTrue => exact h
    case isFalse hk =>
      obtain ⟨h1, h2⟩ := h
      refine ⟨?_, ?_⟩
      · simp [h1, keyOf]
      · simp only [List.nodup_append, List.nodup_cons, List.not_mem_nil, not_false_iff,
          List.nodup_nil, and_true, List.disjoint_singleton]
        exact ⟨h2, trivial, hk⟩
  · exact h

theorem mergeInv_addLlm (acc : MergeAcc) (nt v : String) (h : MergeInv acc) :
    MergeInv (addLlmValue acc nt v) := by
  unfold addLlmValue
  split
  · split
    case isTrue =>
      split
      case isTrue =>
        obtain ⟨h1, h2⟩ := h
        exact ⟨by simp [h1, updateFirstCompany_map_keyOf], h2⟩
      case isFalse => exact h
    case isFalse hk =>
      obtain ⟨h1, h2⟩ := h
      refine ⟨?_, ?_⟩
      · simp [h1, keyOf]
      · simp only [List.nodup_append, List.nodup_cons, List.not_mem_nil, not_false_iff,
          List.nodup_nil, and_true, List.disjoint_singleton]
        exact ⟨h2, trivial, hk⟩
  · exact h

theorem mergeInv_nerPass (d : ExtractorDict) (acc : MergeAcc) (h : MergeInv acc) :
    MergeInv (nerPass acc d) :=
  foldl_preserve MergeInv _
    (fun b kv hb =>
      foldl_preserve MergeInv _ (fun b2 v hb2 => mergeInv_addNer b2 _ v hb2) kv.2 b hb)
    d acc h

theorem mergeInv_llmPass (d : ExtractorDict) (acc : MergeAcc) (h : MergeInv acc) :
    MergeInv (llmPass acc d) :=
  foldl_preserve MergeInv _
    (fun b kv hb =>
      foldl_preserve MergeInv _ (fun b2 v hb2 => mergeInv_addLlm b2 _ v hb2) kv.2 b hb)
    d acc h

/-- Every entity accumulated during the NER pass carries confidence 0.9. -/
def AllNine (acc : MergeAcc) : Prop := ∀ e ∈ acc.entities, e.confidence = 9 / 10

theorem allNine_addNer (acc : MergeAcc) (nt v : String) (h : AllNine acc) :
    AllNine (addNerValue acc nt v) := by
  unfold addNerValue
  split
  · split
    case isTrue => exact h
    case isFalse =>
      intro e he
      rcases List.mem_append.mp he with hmem | hmem
      · exact h e hmem
      · rcases List.mem_singleton.mp hmem with rfl
        rfl
  · exact h

theorem allNine_nerPass (d : ExtractorDict) (acc : MergeAcc) (h : AllNine acc) :
    AllNine (nerPass acc d) :=
  foldl_preserve AllNine _
    (fun b kv hb =>
      foldl_preserve AllNine _ (fun b2 v hb2 => allNine_addNer b2 _ v hb2) kv.2 b hb)
    d acc h

/-- Invariant of the LLM merge pass, relative to the accumulator `A` produced
by the NER pass: the set/keys invariant still holds, `A`'s keys are never lost,
every accumulated entity is classified (NER key with confidence 0.9, NER
company key overwritten to 0.95, or LLM-added key with confidence 0.95), and
every key added after the NER pass has an entity carrying confidence 0.95. -/
def LlmInv (A acc : MergeAcc) : Prop :=
  MergeInv acc ∧
  (∀ k ∈ A.entity_set, k ∈ acc.entity_set) ∧
  (∀ e ∈ acc.entities,
    (keyOf e ∈ A.entity_set ∧
      (e.confidence = 9 / 10 ∨ (e.confidence = 19 / 20 ∧ e.entity_type = "company"))) ∨
    (keyOf e ∉ A.entity_set ∧ e.confidence = 19 / 20)) ∧
  (∀ k ∈ acc.entity_set, k ∉ A.entity_set →
    ∃ e ∈ acc.entities, keyOf e = k ∧ e.confidence = 19 / 20)

theorem llmInv_init (A : MergeAcc) (hA : MergeInv A) (hN : AllNine A) : LlmInv A A := by
  refine ⟨hA, fun k hk => hk, ?_, ?_⟩
  · intro e he
    exact Or.inl ⟨hA.1 ▸ List.mem_map_of_mem keyOf he, Or.inl (hN e he)⟩
  · intro k hk hnk
    exact absurd hk hnk

theorem llmInv_addLlm (A acc : MergeAcc) (nt v : String) (h : LlmInv A acc) :
    LlmInv A (addLlmValue acc nt v) := by
  obtain ⟨⟨hset, hnd⟩, hsub, hcls, hnew⟩ := h
  unfold addLlmValue
  split
  case isFalse => exact ⟨⟨hset, hnd⟩, hsub, hcls, hnew⟩
  case isTrue hv =>
    split
    case isFalse hk =>
      refine ⟨⟨?_, ?_⟩, ?_, ?_, ?_⟩
      · simp [hset, keyOf]
      · simp only [List.nodup_append, List.nodup_cons, List.not_mem_nil, not_false_iff,
          List.nodup_nil, and_true, List.disjoint_singleton]
        exact ⟨hnd, trivial, hk⟩
      · intro k hk2
        simp only [List.mem_append, List.mem_singleton]
        exact Or.inl (hsub k hk2)
      · intro e he
        rcases List.mem_append.mp he with hmem | hmem
        · exact hcls e hmem
        · rcases List.mem_singleton.mp hmem with rfl
          refine Or.inr ⟨?_, rfl⟩
          intro hcontra
          exact hk (hsub _ hcontra)
      · intro k hk2 hnk
        rcases List.mem_append.mp hk2 with hmem | hmem
        · obtain ⟨e, he, h1, h2⟩ := hnew k hmem hnk
          exact ⟨e, List.mem_append.mpr (Or.inl he), h1, h2⟩
        · rcases List.mem_singleton.mp hmem with rfl
          exact ⟨⟨nt, v, 19 / 20⟩, List.mem_append.mpr (Or.inr (List.mem_singleton.mpr rfl)),
            rfl, rfl⟩
    case isTrue hk =>
      split
      case isFalse => exact ⟨⟨hset, hnd⟩, hsub, hcls, hnew⟩
      case isTrue hcomp =>
        refine ⟨⟨?_, hnd⟩, hsub, ?_, ?_⟩
        · simp [hset, updateFirstCompany_map_keyOf]
        · intro x hx
          rcases updateFirstCompany_mem hx with hmem | ⟨e, he, htype, rfl⟩
          · exact hcls x hmem
          · have hco : nt = "company" := beq_iff_eq.mp hcomp
            rcases hcls e he with ⟨hkin, _⟩ | ⟨hkout, _⟩
            · exact Or.inl ⟨hkin, Or.inr ⟨rfl, htype.trans hco⟩⟩
            · exact Or.inr ⟨hkout, rfl⟩
        · intro k hk2 hnk
          obtain ⟨e, he, h1, h2⟩ := hnew k hk2 hnk
          obtain ⟨x, hx, hx1, hx2⟩ := updateFirstCompany_mem_forward he nt v
          refine ⟨x, hx, hx1.trans h1, ?_⟩
          rcases hx2 with hc | hc
          · exact hc.trans h2
          · exact hc

theorem llmInv_pass (A : MergeAcc) (d : ExtractorDict) (acc : MergeAcc) (h : LlmInv A acc) :
    LlmInv A (llmPass acc d) :=
  foldl_preserve (LlmInv A) _
    (fun b kv hb =>
      foldl_preserve (LlmInv A) _ (fun b2 v hb2 => llmInv_addLlm A b2 _ v hb2) kv.2 b hb)
    d acc h

/-- Presence of an entity with a given key at confidence 0.95 — the fact
established by the LLM overwrite and by LLM-only insertion. -/
def HasKey95 (k : String × String) (acc : MergeAcc) : Prop :=
  ∃ e ∈ acc.entities, keyOf e = k ∧ e.confidence = 19 / 20

theorem hasKey95_addLlm (k : String × String) (acc : MergeAcc) (nt v : String)
    (h : HasKey95 k acc) : HasKey95 k (addLlmValue acc nt v) := by
  obtain ⟨e, he, h1, h2⟩ := h
  unfold addLlmValue
  split
  case isFalse => exact ⟨e, he, h1, h2⟩
  case isTrue =>
    split
    case isFalse => exact ⟨e, List.mem_append.mpr (Or.inl he), h1, h2⟩
    case isTrue =>
      split
      case isFalse => exact ⟨e, he, h1, h2⟩
      case isTrue =>
        obtain ⟨x, hx, hx1, hx2⟩ := updateFirstCompany_mem_forward he nt v
        refine ⟨x, hx, hx1.trans h1, ?_⟩
        rcases hx2 with hc | hc
        · exact hc.trans h2
        · exact hc

theorem hasKey95_establish (A acc : MergeAcc) (nt v : String) (hv : v ≠ "")
    (hinv : LlmInv A acc)
    (hcase : (nt, lowerTrim v) ∉ A.entity_set ∨ nt = "company") :
    HasKey95 (nt, lowerTrim v) (addLlmValue acc nt v) := by
  obtain ⟨⟨hset, _⟩, _, _, hnew⟩ := hinv
  unfold addLlmValue
  rw [if_pos hv]
  split
  case isFalse hk =>
    exact ⟨⟨nt, v, 19 / 20⟩, List.mem_append.mpr (Or.inr (List.mem_singleton.mpr rfl)),
      rfl, rfl⟩
  case isTrue hk =>
    split
    case isTrue hcomp =>
      have hkmem : (nt, lowerTrim v) ∈ acc.entities.map keyOf := hset ▸ hk
      obtain ⟨e, he, hkey⟩ := List.mem_map.mp hkmem
      exact updateFirstCompany_establish ⟨e, he, hkey⟩
    case isFalse hcomp =>
      have hnk : (nt, lowerTrim v) ∉ A.entity_set := by
        rcases hcase with h | h
        · exact h
        · exact absurd (beq_iff_eq.mpr h) hcomp
      exact hnew _ hk hnk

/-- Any LLM dict item whose key is new after the NER pass, or whose normalized
type is "company", ends up recorded with confidence 0.95 after the LLM pass. -/
theorem llm_value_recorded (A : MergeAcc) (d : ExtractorDict)
    (p : String × List String) (hp : p ∈ d) (v : String) (hv : v ∈ p.2) (hvne : v ≠ "")
    (hcase : (normalize_entity_type p.1, lowerTrim v) ∉ A.entity_set ∨
      normalize_entity_type p.1 = "company")
    (acc : MergeAcc) (hacc : LlmInv A acc) :
    HasKey95 (normalize_entity_type p.1, lowerTrim v) (llmPass acc d) := by
  refine foldl_establish (HasKey95 (normalize_entity_type p.1, lowerTrim v)) (LlmInv A) _
    ?_ ?_ p ?_ d hp acc hacc
  · intro b kv hb
    exact foldl_preserve _ _ (fun b2 w hb2 => hasKey95_addLlm _ b2 _ w hb2) kv.2 b hb
  · intro b kv hb
    exact foldl_preserve (LlmInv A) _ (fun b2 w hb2 => llmInv_addLlm A b2 _ w hb2) kv.2 b hb
  · intro b hb
    exact foldl_establish (HasKey95 (normalize_entity_type p.1, lowerTrim v)) (LlmInv A) _
      (fun b2 w hb2 => hasKey95_addLlm _ b2 _ w hb2)
      (fun b2 w hb2 => llmInv_addLlm A b2 _ w hb2)
      v (fun b2 hb2 => hasKey95_establish A b2 _ v hvne hb2 hcase)
      p.2 hv b hb

/-- C3: the entity list produced by the extraction stage's merge of the two raw
extractor outputs never contains two entries sharing the uniqueness key
`(normalized entity_type, lowercased-and-trimmed entity_value)`. -/
theorem c3_no_duplicate_entity_keys (nerDict llmDict : ExtractorDict) :
    (mergeEntities nerDict llmDict).Pairwise (fun a b => keyOf a ≠ keyOf b) := by
  have h0 : MergeInv ⟨[], []⟩ := ⟨rfl, List.nodup_nil⟩
  have h1 : MergeInv (llmPass (nerPass ⟨[], []⟩ nerDict) llmDict) :=
    mergeInv_llmPass llmDict _ (mergeInv_nerPass nerDict _ h0)
  obtain ⟨hset, hnd⟩ := h1
  have : ((llmPass (nerPass ⟨[], []⟩ nerDict) llmDict).entities.map keyOf).Nodup := hset ▸ hnd
  exact List.pairwise_map.mp this

/-- C4: in the extraction merge, NER entities are all added with confidence
0.9 and their keys survive into the final list; a final entity whose key was
not produced by the NER pass is an LLM addition with confidence 0.95; a final
entity with an NER key and a non-company type keeps confidence 0.9
(first-writer-wins); a final entity with an NER key has confidence 0.9 unless
it is a company overwritten to 0.95; and every LLM item whose key is new or
whose normalized type is "company" is recorded with confidence 0.95. -/
theorem c4_extractor_precedence (nerDict llmDict : ExtractorDict) :
    (∀ e ∈ (nerPass ⟨[], []⟩ nerDict).entities, e.confidence = 9 / 10) ∧
    (∀ k ∈ (nerPass ⟨[], []⟩ nerDict).entity_set,
      ∃ e ∈ mergeEntities nerDict llmDict, keyOf e = k) ∧
    (∀ e ∈ mergeEntities nerDict llmDict,
      (keyOf e ∉ (nerPass ⟨[], []⟩ nerDict).entity_set → e.confidence = 19 / 20) ∧
      (keyOf e ∈ (nerPass ⟨[], []⟩ nerDict).entity_set → e.entity_type ≠ "company" →
        e.confidence = 9 / 10) ∧
      (keyOf e ∈ (nerPass ⟨[], []⟩ nerDict).entity_set →
        e.confidence = 9 / 10 ∨ (e.confidence = 19 / 20 ∧ e.entity_type = "company"))) ∧
    (∀ p ∈ llmDict, ∀ v ∈ p.2, v ≠ "" →
      ((normalize_entity_type p.1, lowerTrim v) ∉ (nerPass ⟨[], []⟩ nerDict).entity_set ∨
        normalize_entity_type p.1 = "company") →
      ∃ e ∈ mergeEntities nerDict llmDict,
        keyOf e = (normalize_entity_type p.1, lowerTrim v) ∧ e.confidence = 19 / 20) := by
  have h0 : MergeInv ⟨[], []⟩ := ⟨rfl, List.nodup_nil⟩
  have hA : MergeInv (nerPass ⟨[], []⟩ nerDict) := mergeInv_nerPass nerDict _ h0
  have hN : AllNine (nerPass ⟨[], []⟩ nerDict) := by
    refine allNine_nerPass nerDict _ ?_
    intro e he
    cases he
  have hfin : LlmInv (nerPass ⟨[], []⟩ nerDict) (llmPass (nerPass ⟨[], []⟩ nerDict) llmDict) :=
    llmInv_pass _ llmDict _ (llmInv_init _ hA hN)
  obtain ⟨⟨hset, _⟩, hsub, hcls, _⟩ := hfin
  refine ⟨hN, ?_, ?_, ?_⟩
  · intro k hk
    have : k ∈ (llmPass (nerPass ⟨[], []⟩ nerDict) llmDict).entities.map keyOf :=
      hset ▸ hsub k hk
    obtain ⟨e, he, hkey⟩ := List.mem_map.mp this
    exact ⟨e, he, hkey⟩
  · intro e he
    refine ⟨?_, ?_, ?_⟩
    · intro hkout
      rcases hcls e he with ⟨hkin, _⟩ | ⟨_, hc⟩
      · exact absurd hkin hkout
      · exact hc
    · intro hkin htype
      rcases hcls e he with ⟨_, hc⟩ | ⟨hkout, _⟩
      · rcases hc with hc | ⟨_, hco⟩
        · exact hc
        · exact absurd hco htype
      · exact absurd hkin hkout
    · intro hkin
      rcases hcls e he with ⟨_, hc⟩ | ⟨hkout, _⟩
      · exact hc
      · exact absurd hkin hkout
  · intro p hp v hv hvne hcase
    exact llm_value_recorded _ llmDict p hp v hv hvne hcase _ (llmInv_init _ hA hN)

/-- C4 witness: a company reported by both extractors is overwritten to
confidence 0.95 in the merged list. -/
theorem c4_witness :
    ∃ e ∈ mergeEntities [("companies", ["HDFC Bank"])] [("companies", ["hdfc bank "])],
      keyOf e = (normalize_entity_type "companies", lowerTrim "hdfc bank ") ∧
        e.confidence = 19 / 20 :=
  (c4_extractor_precedence [("companies", ["HDFC Bank"])] [("companies", ["hdfc bank "])]).2.2.2
    ("companies", ["hdfc bank "]) (by decide) "hdfc bank " (by decide) (by decide)
    (Or.inr (by decide))

/-! Loop invariants of the stock impact stage. -/

/-- The Python `processed_stocks` set is exactly the key set of the accumulated
impact list, without duplicates. -/
def ImpactInv (acc : ImpactAcc) : Prop :=
  acc.processed = acc.impacts.map impactKey ∧ acc.processed.Nodup

theorem impactInv_step (e : Entity) (acc : ImpactAcc) (m : String × Score × String)
    (h : ImpactInv acc) : ImpactInv (impactStep e acc m) := by
  obtain ⟨h1, h2⟩ := h
  unfold impactStep
  split
  case isTrue => exact ⟨h1, h2⟩
  case isFalse hk =>
    refine ⟨?_, ?_⟩
    · simp [h1, impactKey]
    · simp only [List.nodup_append, List.nodup_cons, List.not_mem_nil, not_false_iff,
        List.nodup_nil, and_true, List.disjoint_singleton]
      exact ⟨h2, trivial, hk⟩

theorem impactInv_inner (e : Entity) :
    ∀ (ms : List (String × Score × String)) (acc : ImpactAcc),
      ImpactInv acc → ImpactInv (impactInner e acc ms)
  | [], _, h => h
  | m :: ms, acc, h => impactInv_inner e ms (impactStep e acc m) (impactInv_step e acc m h)

theorem impactInv_outer :
    ∀ (es : List Entity) (acc : ImpactAcc), ImpactInv acc → ImpactInv (impactOuter acc es)
  | [], _, h => h
  | e :: es, acc, h =>
    impactInv_outer es _ (impactInv_inner e (map_entity_to_stocks e.entity_type e.entity_value) acc h)

/-- Impact record built by the stock impact loop body for entity `e` and
mapping `m` (`stock_impact_agent` lines 46-74): the same record `impactStep`
appends when the key is fresh. -/
def mkImpact (e : Entity) (m : String × Score × String) : StockImpact :=
  ⟨m.1, round3 (blendConfidence e m.2.1 m.2.2), m.2.2, e.entity_value, e.entity_type⟩

/-- Stream of candidate impact records in loop order: entities in list order,
each entity's stock mappings in order.  This is the occurrence order that
"only the first occurrence per key is kept" refers to. -/
def impactStream : List Entity → List StockImpact
  | [] => []
  | e :: es =>
    (map_entity_to_stocks e.entity_type e.entity_value).map (mkImpact e) ++ impactStream es

/-- Written from the spec's words ("impacts are keyed by `(symbol,
impact_type)`; only the first occurrence per key is kept"): keep each record
whose key was not seen before it. -/
def firstOccurrenceByKey (seen : List (String × String)) : List StockImpact → List StockImpact
  | [] => []
  | i :: is =>
    if impactKey i ∈ seen then firstOccurrenceByKey seen is
    else i :: firstOccurrenceByKey (seen ++ [impactKey i]) is

theorem firstOccur_cons (seen : List (String × String)) (i : StockImpact)
    (is : List StockImpact) :
    firstOccurrenceByKey seen (i :: is) =
      if impactKey i ∈ seen then firstOccurrenceByKey seen is
      else i :: firstOccurrenceByKey (seen ++ [impactKey i]) is := rfl

theorem impactInner_eq (e : Entity) :
    ∀ (ms : List (String × Score × String)) (acc : ImpactAcc),
      (impactInner e acc ms).impacts =
        acc.impacts ++ firstOccurrenceByKey acc.processed (ms.map (mkImpact e)) ∧
      (impactInner e acc ms).processed =
        acc.processed ++ (firstOccurrenceByKey acc.processed (ms.map (mkImpact e))).map impactKey
  | [], acc => by simp [impactInner, firstOccurrenceByKey]
  | m :: ms, acc => by
    unfold impactInner impactStep
    simp only [List.map_cons]
    rw [firstOccur_cons]
    rw [show impactKey (mkImpact e m) = (m.1, m.2.2) from rfl]
    by_cases hk : (m.1, m.2.2) ∈ acc.processed
    · rw [if_pos hk, if_pos hk]
      exact impactInner_eq e ms acc
    · rw [if_neg hk, if_neg hk]
      obtain ⟨h1, h2⟩ := impactInner_eq e ms
        ⟨acc.impacts ++ [mkImpact e m], acc.processed ++ [(m.1, m.2.2)]⟩
      constructor
      · show (impactInner e ⟨acc.impacts ++ [mkImpact e m],
            acc.processed ++ [(m.1, m.2.2)]⟩ ms).impacts = _
        rw [h1]
        simp [List.append_assoc, impactKey, mkImpact]
      · show (impactInner e ⟨acc.impacts ++ [mkImpact e m],
            acc.processed ++ [(m.1, m.2.2)]⟩ ms).processed = _
        rw [h2]
        simp [List.append_assoc, impactKey, mkImpact]

theorem firstOccur_append (xs : List StockImpact) :
    ∀ (seen : List (String × String)) (ys : List StockImpact),
      firstOccurrenceByKey seen (xs ++ ys) =
        firstOccurrenceByKey seen xs ++
          firstOccurrenceByKey (seen ++ (firstOccurrenceByKey seen xs).map impactKey) ys := by
  induction xs with
  | nil => intro seen ys; simp [firstOccurrenceByKey]
  | cons i xs ih =>
    intro seen ys
    simp only [List.cons_append]
    rw [firstOccur_cons, firstOccur_cons]
    by_cases hk : impactKey i ∈ seen
    · rw [if_pos hk, if_pos hk]
      exact ih seen ys
    · rw [if_neg hk, if_neg hk]
      rw [ih (seen ++ [impactKey i]) ys]
      simp [List.append_assoc]

theorem impactOuter_eq :
    ∀ (es : List Entity) (acc : ImpactAcc),
      (impactOuter acc es).impacts =
        acc.impacts ++ firstOccurrenceByKey acc.processed (impactStream es) ∧
      (impactOuter acc es).processed =
        acc.processed ++ (firstOccurrenceByKey acc.processed (impactStream es)).map impactKey
  | [], acc => by simp [impactOuter, impactStream, firstOccurrenceByKey]
  | e :: es, acc => by
    unfold impactOuter impactStream
    obtain ⟨hi1, hi2⟩ := impactInner_eq e (map_entity_to_stocks e.entity_type e.entity_value) acc
    obtain ⟨ho1, ho2⟩ :=
      impactOuter_eq es (impactInner e acc (map_entity_to_stocks e.entity_type e.entity_value))
    rw [firstOccur_append]
    constructor
    · rw [ho1, hi1, hi2]
      simp [List.append_assoc]
    · rw [ho2, hi2]
      simp [List.append_assoc]

theorem firstOccur_find? (k : String × String) :
    ∀ (stream : List StockImpact) (seen : List (String × String)), k ∉ seen →
      (firstOccurrenceByKey seen stream).find? (fun i => impactKey i == k) =
        stream.find? (fun i => impactKey i == k)
  | [], _, _ => rfl
  | i :: is, seen, hk => by
    rw [firstOccur_cons]
    by_cases hmem : impactKey i ∈ seen
    · rw [if_pos hmem]
      have hne : ¬(impactKey i == k) = true := by
        rw [beq_iff_eq]
        intro heq
        exact hk (heq ▸ hmem)
      rw [List.find?_cons_of_neg is hne]
      exact firstOccur_find? k is seen hk
    · rw [if_neg hmem]
      by_cases hik : (impactKey i == k) = true
      · rw [List.find?_cons_of_pos (p := fun j => impactKey j == k) _ hik,
          List.find?_cons_of_pos (p := fun j => impactKey j == k) is hik]
      · rw [List.find?_cons_of_neg (p := fun j => impactKey j == k) _ hik,
          List.find?_cons_of_neg (p := fun j => impactKey j == k) is hik]
        have hk2 : k ∉ seen ++ [impactKey i] := by
          simp only [List.mem_append, List.mem_singleton]
          rintro (h | h)
          · exact hk h
          · exact hik (beq_iff_eq.mpr h.symm)
        exact firstOccur_find? k is (seen ++ [impactKey i]) hk2

theorem find?_eq_of_mem_nodup_keys :
    ∀ (l : List StockImpact), (l.map impactKey).Nodup → ∀ i ∈ l,
      l.find? (fun j => impactKey j == impactKey i) = some i
  | [], _, i, hi => absurd hi (List.not_mem_nil i)
  | a :: tl, h, i, hi => by
    simp only [List.map_cons, List.nodup_cons] at h
    rcases List.mem_cons.mp hi with rfl | hmem
    · exact List.find?_cons_of_pos tl (beq_self_eq_true (impactKey i))
    · have hne : ¬(impactKey a == impactKey i) = true := by
        rw [beq_iff_eq]
        intro heq
        exact h.1 (heq ▸ List.mem_map_of_mem impactKey hmem)
      rw [List.find?_cons_of_neg tl hne]
      exact find?_eq_of_mem_nodup_keys tl h.2 i hmem

theorem impactLE_trans (a b c : StockImpact) (hab : impactLE a b = true)
    (hbc : impactLE b c = true) : impactLE a c = true := by
  simp only [impactLE, decide_eq_true_iff] at hab hbc ⊢
  exact le_trans hbc hab

theorem impactLE_total (a b : StockImpact) : (impactLE a b || impactLE b a) = true := by
  simp only [impactLE, Bool.or_eq_true, decide_eq_true_iff]
  exact le_total b.confidence a.confidence

/-- C5: the stock-impact list produced by the stock impact stage has pairwise
distinct `(stock_symbol, impact_type)` keys, is sorted by confidence in
descending order, and per key only the first occurrence is kept: every kept
record is the first record carrying its key in the loop-order stream of
candidate impacts (`impactStream`, entities in order, each entity's mappings
in order), and every candidate key is represented by a kept record. -/
theorem c5_impacts_unique_keys_sorted_desc (s : AgentState) :
    (stock_impact_agent s).stock_impacts.Pairwise (fun a b => impactKey a ≠ impactKey b) ∧
    (stock_impact_agent s).stock_impacts.Pairwise (fun a b => a.confidence ≥ b.confidence) ∧
    (∀ i ∈ (stock_impact_agent s).stock_impacts,
      (impactStream s.entities).find? (fun j => impactKey j == impactKey i) = some i) ∧
    (∀ j ∈ impactStream s.entities,
      ∃ i ∈ (stock_impact_agent s).stock_impacts, impactKey i = impactKey j) := by
  simp only [stock_impact_agent]
  unfold computeStockImpacts
  split
  case isTrue hemp =>
    have hnil : s.entities = [] := List.isEmpty_iff.mp hemp
    refine ⟨by simp, by simp, by simp, ?_⟩
    rw [hnil]
    intro j hj
    simp [impactStream] at hj
  case isFalse =>
    have hinv : ImpactInv (impactOuter ⟨[], []⟩ s.entities) :=
      impactInv_outer s.entities ⟨[], []⟩ ⟨rfl, List.nodup_nil⟩
    obtain ⟨h1, h2⟩ := hinv
    have hkeys : ((impactOuter ⟨[], []⟩ s.entities).impacts.map impactKey).Nodup := h1 ▸ h2
    have hpre : (impactOuter ⟨[], []⟩ s.entities).impacts.Pairwise
        (fun a b => impactKey a ≠ impactKey b) := List.pairwise_map.mp hkeys
    have hperm := List.mergeSort_perm (impactOuter ⟨[], []⟩ s.entities).impacts impactLE
    obtain ⟨ho1, _⟩ := impactOuter_eq s.entities ⟨[], []⟩
    have hfo : (impactOuter ⟨[], []⟩ s.entities).impacts =
        firstOccurrenceByKey [] (impactStream s.entities) := by simpa using ho1
    refine ⟨hpre.perm hperm.symm (fun h h2 => h (h2.symm)), ?_, ?_, ?_⟩
    · have hs := List.sorted_mergeSort impactLE_trans impactLE_total
        (impactOuter ⟨[], []⟩ s.entities).impacts
      exact hs.imp (fun h => by simpa [impactLE, decide_eq_true_iff] using h)
    · intro i hi
      have hmem : i ∈ (impactOuter ⟨[], []⟩ s.entities).impacts := List.mem_mergeSort.mp hi
      have hfind := find?_eq_of_mem_nodup_keys _ hkeys i hmem
      rw [hfo, firstOccur_find? (impactKey i) (impactStream s.entities) []
        (List.not_mem_nil _)] at hfind
      exact hfind
    · intro j hj
      have hsome : ((impactStream s.entities).find?
          (fun i => impactKey i == impactKey j)).isSome := by
        rw [List.find?_isSome]
        exact ⟨j, hj, beq_self_eq_true _⟩
      obtain ⟨i0, hi0⟩ := Option.isSome_iff_exists.mp hsome
      have hp := List.find?_some hi0
      have hkey : impactKey i0 = impactKey j := beq_iff_eq.mp hp
      have hpref : (impactOuter ⟨[], []⟩ s.entities).impacts.find?
          (fun i => impactKey i == impactKey j) = some i0 := by
        rw [hfo, firstOccur_find? (impactKey j) (impactStream s.entities) []
          (List.not_mem_nil _)]
        exact hi0
      exact ⟨i0, List.mem_mergeSort.mpr (List.mem_of_find?_eq_some hpref), hkey⟩

/-! Exact rounding facts for the confidence values that occur in the pipeline. -/

theorem round3_thousandth (n : ℤ) : round3 ((n : ℚ) / 1000) = (n : ℚ) / 1000 := by
  unfold round3
  have h1 : (n : ℚ) / 1000 * 1000 = (n : ℚ) := by
    rw [div_mul_cancel₀]
    norm_num
  rw [h1]
  have h2 : ⌊(n : ℚ) + 1 / 2⌋ = n := by
    rw [Int.floor_eq_iff]
    constructor
    · linarith
    · linarith
  rw [h2]

theorem round3_39_50 : round3 (39 / 50 : ℚ) = 39 / 50 := by
  have h := round3_thousandth 780
  norm_num at h
  convert h using 2

theorem round3_79_100 : round3 (79 / 100 : ℚ) = 79 / 100 := by
  have h := round3_thousandth 790
  norm_num at h
  convert h using 2

theorem round3_one : round3 (1 : ℚ) = 1 := by
  have h := round3_thousandth 1000
  norm_num at h
  exact h

/-- Blending property claimed for a single stock impact, relative to the entity
list it was produced from: a `sector` impact carries exactly the linear
interpolation `min + (max - min) × entity confidence` of its source entity,
inside `[min, max]`; a `direct` impact always carries the fixed configured
`direct_mention_confidence`. -/
def ImpactProp (E : List Entity) (i : StockImpact) : Prop :=
  (i.impact_type = "sector" →
    ∃ e ∈ E, i.source_entity = e.entity_value ∧ i.source_entity_type = e.entity_type ∧
      i.confidence = settings.sector_impact_confidence_min +
        (settings.sector_impact_confidence_max - settings.sector_impact_confidence_min)
          * e.confidence ∧
      settings.sector_impact_confidence_min ≤ i.confidence ∧
      i.confidence ≤ settings.sector_impact_confidence_max) ∧
  (i.impact_type = "direct" → i.confidence = settings.direct_mention_confidence)

theorem impactProp_step (E : List Entity) (e : Entity) (he : e ∈ E)
    (hec : e.confidence = 9 / 10 ∨ e.confidence = 19 / 20)
    (acc : ImpactAcc) (m : String × Score × String)
    (hacc : ∀ i ∈ acc.impacts, ImpactProp E i) :
    ∀ i ∈ (impactStep e acc m).impacts, ImpactProp E i := by
  unfold impactStep
  split
  case isTrue => exact hacc
  case isFalse =>
    intro i hi
    rcases List.mem_append.mp hi with hmem | hmem
    · exact hacc i hmem
    · rcases List.mem_singleton.mp hmem with rfl
      constructor
      · intro hst
        simp only at hst
        refine ⟨e, he, rfl, rfl, ?_⟩
        have hcond1 : ¬(("sector" : String) == "direct") = true := by decide
        have hcond2 : (("sector" : String) == "sector") = true := by decide
        simp only [blendConfidence, hst, if_neg hcond1, if_pos hcond2]
        rcases hec with hc | hc
        · rw [hc]
          have hb : settings.sector_impact_confidence_min +
              (settings.sector_impact_confidence_max - settings.sector_impact_confidence_min)
                * (9 / 10 : ℚ) = 39 / 50 := by norm_num [settings]
          rw [hb, round3_39_50]
          refine ⟨rfl, ?_, ?_⟩ <;> norm_num [settings]
        · rw [hc]
          have hb : settings.sector_impact_confidence_min +
              (settings.sector_impact_confidence_max - settings.sector_impact_confidence_min)
                * (19 / 20 : ℚ) = 79 / 100 := by norm_num [settings]
          rw [hb, round3_79_100]
          refine ⟨rfl, ?_, ?_⟩ <;> norm_num [settings]
      · intro hdt
        simp only at hdt
        have hcond : (("direct" : String) == "direct") = true := by decide
        simp only [blendConfidence, hdt, if_pos hcond]
        rw [show settings.direct_mention_confidence = (1 : ℚ) from by norm_num [settings],
          round3_one]

theorem impactProp_inner (E : List Entity) (e : Entity) (he : e ∈ E)
    (hec : e.confidence = 9 / 10 ∨ e.confidence = 19 / 20) :
    ∀ (ms : List (String × Score × String)) (acc : ImpactAcc),
      (∀ i ∈ acc.impacts, ImpactProp E i) → ∀ i ∈ (impactInner e acc ms).impacts, ImpactProp E i
  | [], _, h => h
  | m :: ms, acc, h =>
    impactProp_inner E e he hec ms (impactStep e acc m) (impactProp_step E e he hec acc m h)

theorem impactProp_outer (E : List Entity)
    (hconf : ∀ e ∈ E, e.confidence = 9 / 10 ∨ e.confidence = 19 / 20) :
    ∀ (es : List Entity), (∀ e ∈ es, e ∈ E) → ∀ (acc : ImpactAcc),
      (∀ i ∈ acc.impacts, ImpactProp E i) → ∀ i ∈ (impactOuter acc es).impacts, ImpactProp E i
  | [], _, _, h => h
  | e :: es, hsub, acc, h =>
    impactProp_outer E hconf es (fun x hx => hsub x (List.mem_cons_of_mem e hx)) _
      (impactProp_inner E e (hsub e (List.mem_cons_self e es))
        (hconf e (hsub e (List.mem_cons_self e es)))
        (map_entity_to_stocks e.entity_type e.entity_value) acc h)

/-- C6: when every entity carries one of the extraction confidences 0.9 or
0.95 (the only values the extraction stage produces), every `sector` impact in
the stage's output carries exactly the blend
`min + (max − min) × entity confidence` of its source entity, inside
`[min, max]`, and every `direct` impact carries the fixed configured
`direct_mention_confidence` regardless of the entity's confidence. -/
theorem c6_confidence_blending (s : AgentState)
    (hconf : ∀ e ∈ s.entities, e.confidence = 9 / 10 ∨ e.confidence = 19 / 20) :
    ∀ i ∈ (stock_impact_agent s).stock_impacts, ImpactProp s.entities i := by
  intro i hi
  have hi2 : i ∈ computeStockImpacts s.entities := hi
  unfold computeStockImpacts at hi2
  split at hi2
  · cases hi2
  · have hmem := List.mem_mergeSort.mp hi2
    exact impactProp_outer s.entities hconf s.entities (fun x hx => hx) ⟨[], []⟩
      (fun i hi => absurd hi (List.not_mem_nil i)) i hmem

/-- State holding one sector entity at the rule-based confidence. -/
def sectorProbeState : AgentState :=
  { create_article_state validSmallArticle with entities := [⟨"sector", "Banking", 9 / 10⟩] }

/-- C6 witness: a concrete state with one sector entity satisfies the blending
property. -/
theorem c6_witness :
    (∀ e ∈ sectorProbeState.entities, e.confidence = 9 / 10 ∨ e.confidence = 19 / 20) ∧
    ∀ i ∈ (stock_impact_agent sectorProbeState).stock_impacts, ImpactProp sectorProbeState.entities i :=
  ⟨fun e he => by rcases List.mem_singleton.mp he with rfl; exact Or.inl rfl,
    c6_confidence_blending sectorProbeState
      (fun e he => by rcases List.mem_singleton.mp he with rfl; exact Or.inl rfl)⟩

/-! Lemmas about the query path's dict model and result loops. -/

theorem dictLookup_isSome_iff (d : List (Nat × ArticleRow)) (k : Nat) :
    (dictLookup d k).isSome ↔ k ∈ d.map Prod.fst := by
  unfold dictLookup
  rcases hfind : List.find? (fun kv => kv.1 == k) d with _ | kv
  · rw [hfind]
    simp only [Option.map_none', Option.isSome_none, Bool.false_eq_true, false_iff]
    intro hmem
    obtain ⟨x, hx, hfst⟩ := List.mem_map.mp hmem
    have hsome : (List.find? (fun kv => kv.1 == k) d).isSome := by
      rw [List.find?_isSome]
      exact ⟨x, hx, beq_iff_eq.mpr hfst⟩
    rw [hfind] at hsome
    cases hsome
  · rw [hfind]
    simp only [Option.map_some', Option.isSome_some, true_iff]
    have hkv := List.find?_some hfind
    have hmem := List.mem_of_find?_eq_some hfind
    exact List.mem_map.mpr ⟨kv, hmem, beq_iff_eq.mp hkv⟩

theorem dictSet_map_fst (d : List (Nat × ArticleRow)) (k : Nat) (v : ArticleRow) :
    (dictSet d k v).map Prod.fst = d.map Prod.fst ∨
      ((dictSet d k v).map Prod.fst = d.map Prod.fst ++ [k] ∧ k ∉ d.map Prod.fst) := by
  unfold dictSet
  split
  case isTrue =>
    left
    rw [List.map_map]
    refine List.map_congr_left ?_
    intro kv _
    simp only [Function.comp_apply]
    split
    case isTrue hbeq => exact (beq_iff_eq.mp hbeq).symm
    case isFalse => rfl
  case isFalse hfind =>
    right
    refine ⟨by simp, ?_⟩
    intro hmem
    apply hfind
    obtain ⟨kv, hkv, hfst⟩ := List.mem_map.mp hmem
    rw [List.find?_isSome]
    exact ⟨kv, hkv, beq_iff_eq.mpr hfst⟩

theorem dictSet_keys_nodup (d : List (Nat × ArticleRow)) (k : Nat) (v : ArticleRow)
    (h : (d.map Prod.fst).Nodup) : ((dictSet d k v).map Prod.fst).Nodup := by
  rcases dictSet_map_fst d k v with heq | ⟨heq, hnot⟩
  · rw [heq]; exact h
  · rw [heq]
    simp only [List.nodup_append, List.nodup_cons, List.not_mem_nil, not_false_iff,
      List.nodup_nil, and_true, List.disjoint_singleton]
    exact ⟨h, trivial, hnot⟩

theorem buildById_keys_nodup (qc : QueryCollab) :
    ∀ (sims : List (Nat × ℚ)) (d : List (Nat × ArticleRow)),
      (d.map Prod.fst).Nodup → ((buildByIdSemantic qc d sims).map Prod.fst).Nodup
  | [], _, h => h
  | p :: rest, d, h => by
    unfold buildByIdSemantic
    split
    case h_1 a heq => exact buildById_keys_nodup qc rest _ (dictSet_keys_nodup d p.1 a h)
    case h_2 => exact buildById_keys_nodup qc rest d h

theorem insertNew_keys_nodup (d : List (Nat × ArticleRow)) (a : ArticleRow)
    (h : (d.map Prod.fst).Nodup) : ((insertNew d a).map Prod.fst).Nodup := by
  unfold insertNew
  split
  case isTrue => exact h
  case isFalse hfind =>
    simp only [List.map_append, List.map_cons, List.map_nil, List.nodup_append,
      List.nodup_cons, List.not_mem_nil, not_false_iff, List.nodup_nil, and_true,
      List.disjoint_singleton]
    refine ⟨h, trivial, ?_⟩
    intro hmem
    exact hfind ((dictLookup_isSome_iff d a.id).mpr hmem)

theorem insertAllNew_keys_nodup :
    ∀ (rows : List ArticleRow) (d : List (Nat × ArticleRow)),
      (d.map Prod.fst).Nodup → ((insertAllNew d rows).map Prod.fst).Nodup
  | [], _, h => h
  | a :: rest, d, h => insertAllNew_keys_nodup rest (insertNew d a) (insertNew_keys_nodup d a h)

theorem expandEntities_keys_nodup (qc : QueryCollab) (queryType : String)
    (queryEntities : List QueryEntity) (d0 : List (Nat × ArticleRow))
    (h : (d0.map Prod.fst).Nodup) :
    ((expandEntities qc queryType queryEntities d0).map Prod.fst).Nodup := by
  unfold expandEntities
  split
  · refine foldl_preserve (fun d => (d.map Prod.fst).Nodup) _ ?_ queryEntities d0 h
    intro d e hd
    split
    · exact insertAllNew_keys_nodup _ d hd
    · exact hd
  · split
    · refine foldl_preserve (fun d => (d.map Prod.fst).Nodup) _ ?_ queryEntities d0 h
      intro d e hd
      split
      · exact insertAllNew_keys_nodup _ d hd
      · exact hd
    · split
      · refine foldl_preserve (fun d => (d.map Prod.fst).Nodup) _ ?_ queryEntities d0 h
        intro d e hd
        split
        · exact insertAllNew_keys_nodup _ d hd
        · exact hd
      · exact h

theorem semanticResults_ids (qc : QueryCollab) (byId : List (Nat × ArticleRow)) :
    ∀ l : List (Nat × ℚ),
      (semanticResults qc byId l).1.map (fun r => r.article_id) = (semanticResults qc byId l).2
  | [] => rfl
  | p :: rest => by
    unfold semanticResults
    split
    case h_1 a heq => simp [mkEntry, semanticResults_ids qc byId rest]
    case h_2 => exact semanticResults_ids qc byId rest

theorem semanticResults_vids_sub (qc : QueryCollab) (byId : List (Nat × ArticleRow)) :
    ∀ (l : List (Nat × ℚ)) (x : Nat),
      x ∈ (semanticResults qc byId l).2 → x ∈ l.map Prod.fst
  | [], _, h => absurd h (List.not_mem_nil _)
  | p :: rest, x, h => by
    unfold semanticResults at h
    split at h
    case h_1 a heq =>
      rcases List.mem_cons.mp h with rfl | hmem
      · exact List.mem_map.mpr ⟨p, List.mem_cons_self p rest, rfl⟩
      · exact List.mem_cons_of_mem _ (semanticResults_vids_sub qc byId rest x hmem)
    case h_2 => exact List.mem_cons_of_mem _ (semanticResults_vids_sub qc byId rest x h)

theorem semanticResults_vids_nodup (qc : QueryCollab) (byId : List (Nat × ArticleRow)) :
    ∀ l : List (Nat × ℚ), (l.map Prod.fst).Nodup → (semanticResults qc byId l).2.Nodup
  | [], _ => List.nodup_nil
  | p :: rest, h => by
    simp only [List.map_cons, List.nodup_cons] at h
    unfold semanticResults
    split
    case h_1 a heq =>
      simp only [List.nodup_cons]
      refine ⟨?_, semanticResults_vids_nodup qc byId rest h.2⟩
      intro hmem
      exact h.1 (semanticResults_vids_sub qc byId rest p.1 hmem)
    case h_2 => exact semanticResults_vids_nodup qc byId rest h.2

theorem semanticResults_vids_mem (qc : QueryCollab) (byId : List (Nat × ArticleRow)) :
    ∀ (l : List (Nat × ℚ)) (x : Nat),
      x ∈ l.map Prod.fst → (dictLookup byId x).isSome → x ∈ (semanticResults qc byId l).2
  | [], _, hx, _ => absurd hx (List.not_mem_nil _)
  | p :: rest, x, hx, hsome => by
    unfold semanticResults
    rcases List.mem_cons.mp hx with heq | hmem
    · subst heq
      split
      case h_1 a hla => exact List.mem_cons_self _ _
      case h_2 hla =>
        exfalso
        rw [hla] at hsome
        cases hsome
    · split
      case h_1 a hla =>
        exact List.mem_cons_of_mem _ (semanticResults_vids_mem qc byId rest x hmem hsome)
      case h_2 => exact semanticResults_vids_mem qc byId rest x hmem hsome

theorem semanticResults_entry (qc : QueryCollab) (byId : List (Nat × ArticleRow)) :
    ∀ (l : List (Nat × ℚ)) (r : QueryResultEntry), r ∈ (semanticResults qc byId l).1 →
      ∃ p ∈ l, ∃ a, dictLookup byId p.1 = some a ∧ r = mkEntry qc a p.1 (round3 p.2)
  | [], _, h => absurd h (List.not_mem_nil _)
  | p :: rest, r, h => by
    unfold semanticResults at h
    split at h
    case h_1 a heq =>
      rcases List.mem_cons.mp h with rfl | hmem
      · exact ⟨p, List.mem_cons_self p rest, a, heq, rfl⟩
      · obtain ⟨q, hq, b, hb, hr⟩ := semanticResults_entry qc byId rest r hmem
        exact ⟨q, List.mem_cons_of_mem _ hq, b, hb, hr⟩
    case h_2 =>
      obtain ⟨q, hq, b, hb, hr⟩ := semanticResults_entry qc byId rest r h
      exact ⟨q, List.mem_cons_of_mem _ hq, b, hb, hr⟩

theorem expansionResults_entry (qc : QueryCollab) (queryType : String) (vids : List Nat) :
    ∀ (dl : List (Nat × ArticleRow)) (r : QueryResultEntry),
      r ∈ expansionResults qc queryType vids dl →
      r.similarity_score = round3 (defaultSimilarity queryType) ∧ r.article_id ∉ vids ∧
        r.article_id ∈ dl.map Prod.fst
  | [], _, h => absurd h (List.not_mem_nil _)
  | kv :: rest, r, h => by
    unfold expansionResults at h
    split at h
    case isTrue =>
      obtain ⟨h1, h2, h3⟩ := expansionResults_entry qc queryType vids rest r h
      exact ⟨h1, h2, List.mem_cons_of_mem _ h3⟩
    case isFalse hnot =>
      rcases List.mem_cons.mp h with rfl | hmem
      · exact ⟨rfl, hnot, List.mem_map.mpr ⟨kv, List.mem_cons_self kv rest, rfl⟩⟩
      · obtain ⟨h1, h2, h3⟩ := expansionResults_entry qc queryType vids rest r hmem
        exact ⟨h1, h2, List.mem_cons_of_mem _ h3⟩

theorem expansionResults_ids_nodup (qc : QueryCollab) (queryType : String) (vids : List Nat) :
    ∀ dl : List (Nat × ArticleRow), (dl.map Prod.fst).Nodup →
      ((expansionResults qc queryType vids dl).map (fun r => r.article_id)).Nodup
  | [], _ => List.nodup_nil
  | kv :: rest, h => by
    simp only [List.map_cons, List.nodup_cons] at h
    unfold expansionResults
    split
    case isTrue => exact expansionResults_ids_nodup qc queryType vids rest h.2
    case isFalse =>
      simp only [List.map_cons, List.nodup_cons]
      refine ⟨?_, expansionResults_ids_nodup qc queryType vids rest h.2⟩
      intro hmem
      obtain ⟨r, hr, hrid⟩ := List.mem_map.mp hmem
      obtain ⟨_, _, h3⟩ := expansionResults_entry qc queryType vids rest r hr
      have hr2 : r.article_id = kv.1 := hrid
      exact h.1 (hr2 ▸ h3)

theorem pair_eq_of_fst_nodup :
    ∀ {l : List (Nat × ℚ)}, (l.map Prod.fst).Nodup →
      ∀ {p q : Nat × ℚ}, p ∈ l → q ∈ l → p.1 = q.1 → p = q := by
  intro l
  induction l with
  | nil => intro _ p q hp; cases hp
  | cons a tl ih =>
    intro h p q hp hq hfst
    simp only [List.map_cons, List.nodup_cons] at h
    rcases List.mem_cons.mp hp with rfl | hp2
    · rcases List.mem_cons.mp hq with rfl | hq2
      · rfl
      · exact absurd (hfst ▸ List.mem_map.mpr ⟨q, hq2, rfl⟩) h.1
    · rcases List.mem_cons.mp hq with rfl | hq2
      · exact absurd (hfst ▸ List.mem_map.mpr ⟨p, hp2, rfl⟩ : q.1 ∈ tl.map Prod.fst) h.1
      · exact ih h.2 hp2 hq2 hfst

theorem resultLE_trans (a b c : QueryResultEntry) (hab : resultLE a b = true)
    (hbc : resultLE b c = true) : resultLE a c = true := by
  simp only [resultLE, decide_eq_true_iff] at hab hbc ⊢
  exact le_trans hbc hab

theorem resultLE_total (a b : QueryResultEntry) : (resultLE a b || resultLE b a) = true := by
  simp only [resultLE, Bool.or_eq_true, decide_eq_true_iff]
  exact le_total b.similarity_score a.similarity_score

theorem round3_85_100 : round3 (85 / 100 : ℚ) = 85 / 100 := by
  have h := round3_thousandth 850
  norm_num at h
  rw [show (85 / 100 : ℚ) = 17 / 20 by norm_num]
  exact h

theorem round3_7_10 : round3 (7 / 10 : ℚ) = 7 / 10 := by
  have h := round3_thousandth 700
  norm_num at h
  exact h

/-- C8 (corrected): in every query result list, assuming the vector store
returns each article id at most once, no article id appears twice; the list is
sorted by similarity score descending; an article absent from the semantic
search results carries exactly the synthetic score 0.85 for
company/sector/regulator queries and 0.70 for theme queries; and an article
found by semantic search carries its real similarity score rounded to three
decimal places. -/
theorem c8_query_merge (qc : QueryCollab) (queryType : String)
    (queryEntities : List QueryEntity) (similar : List (Nat × ℚ))
    (hids : (similar.map Prod.fst).Nodup) :
    ((process_query_async qc queryType queryEntities similar).map
        (fun r => r.article_id)).Nodup ∧
    (process_query_async qc queryType queryEntities similar).Pairwise
      (fun a b => a.similarity_score ≥ b.similarity_score) ∧
    ∀ r ∈ process_query_async qc queryType queryEntities similar,
      (r.article_id ∉ similar.map Prod.fst →
        ((queryType = "company" ∨ queryType = "sector" ∨ queryType = "regulator") →
          r.similarity_score = 85 / 100) ∧
        (queryType = "theme" → r.similarity_score = 7 / 10)) ∧
      ∀ sim : ℚ, (r.article_id, sim) ∈ similar → r.similarity_score = round3 sim := by
  set byId := expandEntities qc queryType queryEntities (buildByIdSemantic qc [] similar)
    with hbyId
  set res1 := (semanticResults qc byId similar).1 with hres1
  set vids := (semanticResults qc byId similar).2 with hvids
  set res2 := expansionResults qc queryType vids byId with hres2
  have hql : process_query_async qc queryType queryEntities similar =
      (res1 ++ res2).mergeSort resultLE := rfl
  have hByIdKeys : (byId.map Prod.fst).Nodup := by
    rw [hbyId]
    exact expandEntities_keys_nodup qc queryType queryEntities _
      (buildById_keys_nodup qc similar [] List.nodup_nil)
  have hres1_ids : res1.map (fun r => r.article_id) = vids :=
    semanticResults_ids qc byId similar
  have hvids_nodup : vids.Nodup := semanticResults_vids_nodup qc byId similar hids
  have hres2_nodup : (res2.map (fun r => r.article_id)).Nodup :=
    expansionResults_ids_nodup qc queryType vids byId hByIdKeys
  have hperm : ((res1 ++ res2).mergeSort resultLE).Perm (res1 ++ res2) :=
    List.mergeSort_perm _ _
  have hpre_ids : ((res1 ++ res2).map (fun r => r.article_id)).Nodup := by
    rw [List.map_append, List.nodup_append]
    refine ⟨hres1_ids ▸ hvids_nodup, hres2_nodup, ?_⟩
    intro x hx1 hx2
    obtain ⟨r2, hr2, hr2id⟩ := List.mem_map.mp hx2
    obtain ⟨_, hnot, _⟩ := expansionResults_entry qc queryType vids byId r2 hr2
    apply hnot
    rw [hr2id]
    rw [hres1_ids] at hx1
    exact hx1
  refine ⟨?_, ?_, ?_⟩
  · rw [hql]
    exact (hperm.map (fun r => r.article_id)).nodup_iff.mpr hpre_ids
  · rw [hql]
    exact (List.sorted_mergeSort resultLE_trans resultLE_total (res1 ++ res2)).imp
      (fun h => of_decide_eq_true h)
  · intro r hr
    rw [hql] at hr
    rcases List.mem_append.mp (List.mem_mergeSort.mp hr) with hr1 | hr2b
    · obtain ⟨p, hp, a, hla, rfl⟩ := semanticResults_entry qc byId similar r hr1
      constructor
      · intro habs
        exact absurd (List.mem_map.mpr ⟨p, hp, rfl⟩) habs
      · intro sim hsim
        have hpq : p = (p.1, sim) := pair_eq_of_fst_nodup hids hp hsim rfl
        have hsnd : p.2 = sim := congrArg Prod.snd hpq
        show round3 p.2 = round3 sim
        rw [hsnd]
    · obtain ⟨hsc, hnvids, hkeys⟩ := expansionResults_entry qc queryType vids byId r hr2b
      constructor
      · intro _
        constructor
        · rintro (rfl | rfl | rfl)
          · rw [hsc, show defaultSimilarity "company" = 85 / 100 from rfl]
            exact round3_85_100
          · rw [hsc, show defaultSimilarity "sector" = 85 / 100 from rfl]
            exact round3_85_100
          · rw [hsc, show defaultSimilarity "regulator" = 85 / 100 from rfl]
            exact round3_85_100
        · rintro rfl
          rw [hsc, show defaultSimilarity "theme" = 7 / 10 from rfl]
          exact round3_7_10
      · intro sim hsim
        exfalso
        apply hnvids
        refine semanticResults_vids_mem qc byId similar r.article_id
          (List.mem_map.mpr ⟨(r.article_id, sim), hsim, rfl⟩) ?_
        exact (dictLookup_isSome_iff byId r.article_id).mpr hkeys

/-- Relational-store collaborators for the query-path probes: article 1 exists,
entity expansion returns article 2. -/
def queryProbeCollab : QueryCollab where
  getArticle := fun i => if i == 1 then some ⟨1, "T1", "C1", "s"⟩ else none
  getArticlesByEntity := fun _ _ => [⟨2, "T2", "C2", "s"⟩]
  getEntities := fun _ => []
  getStockImpacts := fun _ => []

/-- C8 witness: the merge properties hold on a concrete sector query with one
semantic hit and one expansion-only article. -/
theorem c8_witness :
    (([(1, (1 : ℚ) / 3)].map Prod.fst).Nodup) ∧
    (((process_query_async queryProbeCollab "sector" [⟨"sector", "Banking"⟩]
        [(1, (1 : ℚ) / 3)]).map (fun r => r.article_id)).Nodup ∧
      (process_query_async queryProbeCollab "sector" [⟨"sector", "Banking"⟩]
          [(1, (1 : ℚ) / 3)]).Pairwise
        (fun a b => a.similarity_score ≥ b.similarity_score) ∧
      ∀ r ∈ process_query_async queryProbeCollab "sector" [⟨"sector", "Banking"⟩]
          [(1, (1 : ℚ) / 3)],
        (r.article_id ∉ [(1, (1 : ℚ) / 3)].map Prod.fst →
          (("sector" = "company" ∨ "sector" = "sector" ∨ "sector" = "regulator") →
            r.similarity_score = 85 / 100) ∧
          ("sector" = "theme" → r.similarity_score = 7 / 10)) ∧
        ∀ sim : ℚ, (r.article_id, sim) ∈ [(1, (1 : ℚ) / 3)] →
          r.similarity_score = round3 sim) :=
  ⟨by simp,
    c8_query_merge queryProbeCollab "sector" [⟨"sector", "Banking"⟩] [(1, (1 : ℚ) / 3)]
      (by simp)⟩

/-- C8 counterexample to the "keeps their real similarity score" conjunct as
stated: a semantic hit with similarity 1/3 is stored with score 0.333, not its
real score. -/
theorem c8_counterexample_score_rounded :
    (process_query_async queryProbeCollab "theme" [] [(1, (1 : ℚ) / 3)]).map
        (fun r => (r.article_id, r.similarity_score)) = [(1, round3 (1 / 3))] ∧
    round3 (1 / 3 : ℚ) = 333 / 1000 ∧ (333 / 1000 : ℚ) ≠ 1 / 3 := by
  refine ⟨?_, ?_, by norm_num⟩
  · simp [process_query_async, buildByIdSemantic, dictSet, dictLookup, expandEntities,
      semanticResults, expansionResults, mkEntry, queryProbeCollab, defaultSimilarity,
      insertNew, insertAllNew, List.mergeSort_singleton]
  · unfold round3
    rw [show (1 / 3 : ℚ) * 1000 + 1 / 2 = 2003 / 6 by norm_num]
    rw [show ⌊(2003 / 6 : ℚ)⌋ = 333 by
      rw [Int.floor_eq_iff]
      constructor <;> norm_num]
    norm_num

end NewsPipeline
